import Mathlib

/-!
Verification development for the pyascent front end: a shallow embedding of
the parser (src/Parser.py), the scope environment (src/Environment.py) and
the lowering pass (src/Compiler.py), together with theorems settling the
frozen claims about them.

Conventions of the embedding:
- the tokenizer is external; the parser is modelled over a finite list of
  tokens, and an exhausted list yields EOF tokens forever (the behaviour the
  parser relies on);
- Python exceptions (attribute errors, unpacking None, KeyError) are
  modelled as Except.error with a message naming the Python failure;
- the parser functions are fuel-indexed (fuel decreases at every call);
  running out of fuel returns none.  Termination is then a theorem, not a
  modelling assumption.
-/

namespace PyAscent

/-! ## Token model (src/Token.py)

Tokens carry a kind and a literal string; line and column are omitted
because no parsing or lowering decision reads them. -/

inductive TokenType where
  | EOF | ILLEGAL
  | IDENT | INT | FLOAT
  | PLUS | MINUS | ASTERISK | SLASH | POW | MODULUS
  | EQ
  | LT | GT | EQ_EQ | NOT_EQ | LT_EQ | GT_EQ
  | COLON | SEMICOLON | ARROW | LPAREN | RPAREN | LBRACE | RBRACE
  | VAR | FN | RET | IF | ELSE | TRUE | FALSE
  | TYPE
deriving DecidableEq, Fintype

/-- Short rendering of a token kind, used only inside diagnostic strings
(the exact diagnostic text is never load-bearing for a claim). -/
def TokenType.str : TokenType → String
  | .EOF => "EOF" | .ILLEGAL => "ILLEGAL"
  | .IDENT => "IDENT" | .INT => "INT" | .FLOAT => "FLOAT"
  | .PLUS => "PLUS" | .MINUS => "MINUS" | .ASTERISK => "ASTERISK"
  | .SLASH => "SLASH" | .POW => "POW" | .MODULUS => "MODULUS"
  | .EQ => "EQ"
  | .LT => "LT" | .GT => "GT" | .EQ_EQ => "EQ_EQ" | .NOT_EQ => "NOT_EQ"
  | .LT_EQ => "LT_EQ" | .GT_EQ => "GT_EQ"
  | .COLON => "COLON" | .SEMICOLON => "SEMICOLON" | .ARROW => "ARROW"
  | .LPAREN => "LPAREN" | .RPAREN => "RPAREN" | .LBRACE => "LBRACE"
  | .RBRACE => "RBRACE"
  | .VAR => "VAR" | .FN => "FN" | .RET => "RET" | .IF => "IF"
  | .ELSE => "ELSE" | .TRUE => "TRUE" | .FALSE => "FALSE"
  | .TYPE => "TYPE"

structure Token where
  type : TokenType
  lit : String
deriving DecidableEq

/-! ## Syntax tree (src/AST.py)

Fields that the Python constructors default to None, and that parsing can
leave as None, are Option-typed.  AST.py does not define the IfStatement and
BooleanLiteral node classes even though src/Compiler.py imports and handles
them; their shape here (condition, consequence, optional alternative; a
boolean value) is modelled from the spec and from the field accesses in
Compiler.__visit_if_statement / __resolve_value. -/

inductive Expr where
  | intLit (value : Int)
  | floatLit (value : Rat)
  | identLit (value : String)
  | boolLit (value : Bool)
  | infixExpr (leftNode : Option Expr) (operator : String) (rightNode : Option Expr)

inductive Stmt where
  | exprStmt (expr : Option Expr)
  | varStmt (name : String) (valueType : String) (value : Option Expr)
  | blockStmt (statements : List Stmt)
  | retStmt (returnValue : Option Expr)
  | funcStmt (name : String) (returnType : String) (body : List Stmt)
  | assignStmt (ident : String) (rightValue : Option Expr)
  | ifStmt (condition : Expr) (consequence : Stmt) (alternative : Option Stmt)

/-! ## Parser state and helpers (src/Parser.py) -/

def eofToken : Token := ⟨.EOF, ""⟩

/-- One pull from the (external) token source: an exhausted source keeps
yielding EOF. -/
def lexNext : List Token → Token × List Token
  | [] => (eofToken, [])
  | t :: ts => (t, ts)

structure PState where
  cur : Token
  peek : Token
  rest : List Token
  errors : List String
deriving DecidableEq

def nextToken (st : PState) : PState :=
  { cur := st.peek, peek := (lexNext st.rest).1, rest := (lexNext st.rest).2,
    errors := st.errors }

/-- The Parser constructor: current and peek start as None in Python and are
populated by two next-token steps; the dummies are never read. -/
def initPState (ts : List Token) : PState :=
  nextToken (nextToken { cur := eofToken, peek := eofToken, rest := ts, errors := [] })

inductive PrecedenceType where
  | P_LOWEST | P_EQUALS | P_LESSGREATER | P_SUM | P_PRODUCT | P_EXPONENT
  | P_PREFIX | P_CALL | P_INDEX
deriving DecidableEq

def PrecedenceType.value : PrecedenceType → Nat
  | .P_LOWEST => 0 | .P_EQUALS => 1 | .P_LESSGREATER => 2 | .P_SUM => 3
  | .P_PRODUCT => 4 | .P_EXPONENT => 5 | .P_PREFIX => 6 | .P_CALL => 7
  | .P_INDEX => 8

/-- The precedence table of src/Parser.py (PRECEDENCES). -/
def PRECEDENCES : TokenType → Option PrecedenceType
  | .PLUS => some .P_SUM
  | .MINUS => some .P_SUM
  | .SLASH => some .P_PRODUCT
  | .ASTERISK => some .P_PRODUCT
  | .MODULUS => some .P_PRODUCT
  | .POW => some .P_EXPONENT
  | _ => none

def currentPrecedence (st : PState) : PrecedenceType :=
  (PRECEDENCES st.cur.type).getD .P_LOWEST

def peekPrecedence (st : PState) : PrecedenceType :=
  (PRECEDENCES st.peek.type).getD .P_LOWEST

def peekError (tt : TokenType) (st : PState) : PState :=
  { st with errors := st.errors ++
      ["Expected next token to be " ++ tt.str ++ ", got " ++ st.peek.type.str ++ " instead."] }

def noPrefixFnError (st : PState) : PState :=
  { st with errors := st.errors ++
      ["No Prefix Parse Function for " ++ st.cur.type.str ++ " found"] }

def expectPeek (tt : TokenType) (st : PState) : Bool × PState :=
  if st.peek.type = tt then (true, nextToken st) else (false, peekError tt st)

/-- The token kinds registered in Parser.prefix_parse_fns. -/
def hasPrefixFn : TokenType → Bool
  | .IDENT | .INT | .FLOAT | .LPAREN => true
  | _ => false

/-- The token kinds registered in Parser.infix_parse_fns. -/
def hasInfixFn : TokenType → Bool
  | .PLUS | .MINUS | .SLASH | .ASTERISK | .POW | .MODULUS => true
  | _ => false

/-! ### Prefix handlers -/

def parseIdentifier (st : PState) : Option Expr × PState :=
  (some (.identLit st.cur.lit), st)

def digit? (c : Char) : Option Nat :=
  if 48 ≤ c.toNat ∧ c.toNat ≤ 57 then some (c.toNat - 48) else none

def digitsToNat? : List Char → Nat → Option Nat
  | [], acc => some acc
  | c :: cs, acc =>
    match digit? c with
    | some d => digitsToNat? cs (acc * 10 + d)
    | none => none

/-- Model of the external Python int() applied to a lexer literal (an
optional sign followed by decimal digits). -/
def pyInt? (s : String) : Option Int :=
  match s.data with
  | [] => none
  | '-' :: [] => none
  | '-' :: cs => (digitsToNat? cs 0).map (fun n => -(n : Int))
  | cs => (digitsToNat? cs 0).map (fun n => (n : Int))

def parseIntLiteral (st : PState) : Option Expr × PState :=
  match pyInt? st.cur.lit with
  | some v => (some (.intLit v), st)
  | none => (none, { st with errors := st.errors ++
      ["Could not parse " ++ st.cur.lit ++ " as an integer."] })

def splitDot : List Char → List Char × Option (List Char)
  | [] => ([], none)
  | '.' :: cs => ([], some cs)
  | c :: cs =>
    match splitDot cs with
    | (w, f) => (c :: w, f)

/-- Model of the external Python float() applied to a lexer literal
(digits with an optional single decimal point). -/
def pyFloat? (s : String) : Option Rat :=
  match splitDot s.data with
  | (w, none) => (pyInt? ⟨w⟩).map (fun n => (n : Rat))
  | (w, some f) =>
    match pyInt? ⟨w⟩, digitsToNat? f 0 with
    | some n, some fr =>
      some ((n : Rat) + (if n < 0 then -1 else 1) * (fr : Rat) / ((10 : Rat) ^ f.length))
    | _, _ => none

def parseFloatLiteral (st : PState) : Option Expr × PState :=
  match pyFloat? st.cur.lit with
  | some v => (some (.floatLit v), st)
  | none => (none, { st with errors := st.errors ++
      ["Could not parse " ++ st.cur.lit ++ " as an float."] })

/-! ### The recursive parsing functions

Every function takes explicit fuel and returns none when the fuel runs out;
each (mutual) recursive call is made at one unit less fuel, so the
definitions are structurally recursive on the fuel.  Option results inside
the pair mirror Python returning None for a failed node. -/

mutual

def parseExpressionFn : Nat → PrecedenceType → PState → Option (Option Expr × PState)
  | 0, _, _ => none
  | fuel+1, prec, st =>
    match st.cur.type with
    | .IDENT =>
      match parseIdentifier st with
      | (left, st1) => parseExprLoopFn fuel prec left st1
    | .INT =>
      match parseIntLiteral st with
      | (left, st1) => parseExprLoopFn fuel prec left st1
    | .FLOAT =>
      match parseFloatLiteral st with
      | (left, st1) => parseExprLoopFn fuel prec left st1
    | .LPAREN =>
      match parseGroupedFn fuel st with
      | none => none
      | some (left, st1) => parseExprLoopFn fuel prec left st1
    | _ => some (none, noPrefixFnError st)

def parseExprLoopFn : Nat → PrecedenceType → Option Expr → PState → Option (Option Expr × PState)
  | 0, _, _, _ => none
  | fuel+1, prec, left, st =>
    if st.peek.type ≠ .SEMICOLON ∧ prec.value < (peekPrecedence st).value then
      if hasInfixFn st.peek.type then
        match parseInfixExprFn fuel left (nextToken st) with
        | none => none
        | some (left2, st2) => parseExprLoopFn fuel prec left2 st2
      else some (left, st)
    else some (left, st)

def parseInfixExprFn : Nat → Option Expr → PState → Option (Option Expr × PState)
  | 0, _, _ => none
  | fuel+1, left, st =>
    match parseExpressionFn fuel (currentPrecedence st) (nextToken st) with
    | none => none
    | some (right, st2) => some (some (.infixExpr left st.cur.lit right), st2)

def parseGroupedFn : Nat → PState → Option (Option Expr × PState)
  | 0, _ => none
  | fuel+1, st =>
    match parseExpressionFn fuel .P_LOWEST (nextToken st) with
    | none => none
    | some (e, st1) =>
      match expectPeek .RPAREN st1 with
      | (true, st2) => some (e, st2)
      | (false, st2) => some (none, st2)

def parseStatementFn : Nat → PState → Option (Option Stmt × PState)
  | 0, _ => none
  | fuel+1, st =>
    if st.cur.type = .IDENT ∧ st.peek.type = .EQ then
      parseAssignStatementFn fuel st
    else
      match st.cur.type with
      | .VAR => parseVarStatementFn fuel st
      | .FN => parseFunctionStatementFn fuel st
      | .RET => parseReturnStatementFn fuel st
      | _ => parseExpressionStatementFn fuel st

def parseExpressionStatementFn : Nat → PState → Option (Option Stmt × PState)
  | 0, _ => none
  | fuel+1, st =>
    match parseExpressionFn fuel .P_LOWEST st with
    | none => none
    | some (e, st1) =>
      some (some (Stmt.exprStmt e),
        if st1.peek.type = .SEMICOLON then nextToken st1 else st1)

def parseVarStatementFn : Nat → PState → Option (Option Stmt × PState)
  | 0, _ => none
  | fuel+1, st =>
    match expectPeek .IDENT st with
    | (false, st1) => some (none, st1)
    | (true, st1) =>
      match expectPeek .COLON st1 with
      | (false, st2) => some (none, st2)
      | (true, st2) =>
        match expectPeek .TYPE st2 with
        | (false, st3) => some (none, st3)
        | (true, st3) =>
          match expectPeek .EQ st3 with
          | (false, st4) => some (none, st4)
          | (true, st4) =>
            match parseExpressionFn fuel .P_LOWEST (nextToken st4) with
            | none => none
            | some (v, st5) =>
              match skipToSemicolonFn fuel st5 with
              | none => none
              | some st6 => some (some (Stmt.varStmt st1.cur.lit st3.cur.lit v), st6)

/-- The recovery loop at the end of Parser.__parse_var_statement. -/
def skipToSemicolonFn : Nat → PState → Option PState
  | 0, _ => none
  | fuel+1, st =>
    if st.cur.type ≠ .SEMICOLON ∧ st.cur.type ≠ .EOF then
      skipToSemicolonFn fuel (nextToken st)
    else some st

def parseFunctionStatementFn : Nat → PState → Option (Option Stmt × PState)
  | 0, _ => none
  | fuel+1, st =>
    match expectPeek .IDENT st with
    | (false, st1) => some (none, st1)
    | (true, st1) =>
      match expectPeek .LPAREN st1 with
      | (false, st2) => some (none, st2)
      | (true, st2) =>
        match expectPeek .RPAREN st2 with
        | (false, st3) => some (none, st3)
        | (true, st3) =>
          match expectPeek .ARROW st3 with
          | (false, st4) => some (none, st4)
          | (true, st4) =>
            match expectPeek .TYPE st4 with
            | (false, st5) => some (none, st5)
            | (true, st5) =>
              match expectPeek .LBRACE st5 with
              | (false, st6) => some (none, st6)
              | (true, st6) =>
                match parseBlockStatementFn fuel st6 with
                | none => none
                | some (body, st7) =>
                  some (some (.funcStmt st1.cur.lit st5.cur.lit body), st7)

def parseReturnStatementFn : Nat → PState → Option (Option Stmt × PState)
  | 0, _ => none
  | fuel+1, st =>
    match parseExpressionFn fuel .P_LOWEST (nextToken st) with
    | none => none
    | some (v, st1) =>
      match expectPeek .SEMICOLON st1 with
      | (false, st2) => some (none, st2)
      | (true, st2) => some (some (.retStmt v), st2)

def parseBlockStatementFn : Nat → PState → Option (List Stmt × PState)
  | 0, _ => none
  | fuel+1, st => blockLoopFn fuel [] (nextToken st)

def blockLoopFn : Nat → List Stmt → PState → Option (List Stmt × PState)
  | 0, _, _ => none
  | fuel+1, acc, st =>
    if st.cur.type ≠ .RBRACE ∧ st.cur.type ≠ .EOF then
      match parseStatementFn fuel st with
      | none => none
      | some (stmtOpt, st1) =>
        blockLoopFn fuel
          (match stmtOpt with | some s => acc ++ [s] | none => acc)
          (nextToken st1)
    else some (acc, st)

def parseAssignStatementFn : Nat → PState → Option (Option Stmt × PState)
  | 0, _ => none
  | fuel+1, st =>
    match parseExpressionFn fuel .P_LOWEST (nextToken (nextToken st)) with
    | none => none
    | some (v, st2) => some (some (Stmt.assignStmt st.cur.lit v), nextToken st2)

def parseProgramLoopFn : Nat → List Stmt → PState → Option (List Stmt × PState)
  | 0, _, _ => none
  | fuel+1, acc, st =>
    if st.cur.type = .EOF then some (acc, st)
    else
      match parseStatementFn fuel st with
      | none => none
      | some (stmtOpt, st1) =>
        parseProgramLoopFn fuel
          (match stmtOpt with | some s => acc ++ [s] | none => acc)
          (nextToken st1)

end

/-- Parser.parse_program over a token list (the program is the list of
collected statements). -/
def parseProgram (fuel : Nat) (ts : List Token) : Option (List Stmt × PState) :=
  parseProgramLoopFn fuel [] (initPState ts)

/-- Remaining-input measure for a parser state: the tokens still to be
consumed, counting the lookahead pair. -/
def parserMeasure (st : PState) : Nat :=
  st.rest.length + (if st.peek.type = TokenType.EOF then 0 else 1) +
    (if st.cur.type = TokenType.EOF then 0 else 1)

/-- Invariant of states arising from a finite stream terminated by the end
marker: EOF is produced only by exhaustion, so once EOF reaches the peek or
the cursor, nothing follows it. -/
def WFStream (st : PState) : Prop :=
  (∀ t ∈ st.rest, t.type ≠ TokenType.EOF) ∧
  (st.peek.type = TokenType.EOF → st.rest = []) ∧
  (st.cur.type = TokenType.EOF → st.peek.type = TokenType.EOF ∧ st.rest = [])

/-! ## IR model (the llvmlite objects the Compiler builds)

The backend is external; only the pieces the lowering pass constructs are
modelled: typed values, instructions, basic blocks, functions.  As in
llvmlite, a builder appends instructions at its position unconditionally,
and a block's terminator is its last instruction when that instruction is a
terminator — so a malformed block with an instruction after a terminator is
representable, and the single-terminator discipline is a theorem about the
lowering pass, not a constraint of the model. -/

inductive IRType where
  | i32 | f32 | i1
  | pointer (pointee : IRType)
  | func (ret : IRType)
deriving DecidableEq

/-- isinstance(t, ir.IntType): both i32 and the boolean i1 are IntType. -/
def IRType.isIntType : IRType → Bool
  | .i32 => true
  | .i1 => true
  | _ => false

def IRType.isFloatType : IRType → Bool
  | .f32 => true
  | _ => false

inductive Value where
  | constI32 (n : Int)
  | constF32 (q : Rat)
  | constI1 (n : Int)
  | ptr (addr : Nat)
  | reg (id : Nat)
  | globalRef (name : String)
  | funcRef (name : String)
deriving DecidableEq

inductive BinOp where
  | add | sub | mul | sdiv | srem
  | fadd | fsub | fmul | fdiv | frem
deriving DecidableEq

inductive Instr where
  | alloca (res : Nat) (ty : IRType)
  | store (v : Value) (dst : Value)
  | load (res : Nat) (src : Value)
  | binop (res : Nat) (op : BinOp) (lhs rhs : Value)
  | icmpSigned (res : Nat) (op : String) (lhs rhs : Value)
  | fcmpOrdered (res : Nat) (op : String) (lhs rhs : Value)
  | ret (v : Value)
  | br (target : Nat)
  | cbr (cond : Value) (thenTarget elseTarget : Nat)
deriving DecidableEq

def Instr.isTerminator : Instr → Bool
  | .ret _ => true
  | .br _ => true
  | .cbr _ _ _ => true
  | _ => false

structure BasicBlock where
  name : String
  instrs : List Instr
deriving DecidableEq

/-- llvmlite Block.terminator: the last instruction when it is a
terminator, otherwise None. -/
def BasicBlock.terminator (b : BasicBlock) : Option Instr :=
  match b.instrs.getLast? with
  | some i => if i.isTerminator then some i else none
  | none => none

/-- Number of terminator instructions anywhere in a block. -/
def BasicBlock.termCount (b : BasicBlock) : Nat :=
  (b.instrs.filter Instr.isTerminator).length

structure IRFunction where
  name : String
  retType : IRType
  blocks : List BasicBlock
deriving DecidableEq

/-! ## Scope environment (src/Environment.py)

A frame is a record list plus a debug name; the chain of parent links is a
list whose head is the current frame. -/

def updateAssoc : List (String × Value × IRType) → String → Value × IRType →
    List (String × Value × IRType)
  | [], n, vt => [(n, vt)]
  | (k, old) :: rest, n, vt =>
    if k = n then (n, vt) :: rest else (k, old) :: updateAssoc rest n vt

structure Frame where
  records : List (String × Value × IRType)
  name : String
deriving DecidableEq

/-- Environment.define on one frame (dict update: overwrite in place). -/
def Frame.define (f : Frame) (n : String) (v : Value) (t : IRType) : Frame :=
  { f with records := updateAssoc f.records n (v, t) }

def Frame.lookup? (f : Frame) (n : String) : Option (Value × IRType) :=
  (f.records.find? (fun r => r.1 = n)).map (fun r => r.2)

/-- Environment.lookup / __resolve: current frame first, then the parents. -/
def envLookup : List Frame → String → Option (Value × IRType)
  | [], _ => none
  | f :: parents, n =>
    match f.lookup? n with
    | some vt => some vt
    | none => envLookup parents n

/-- Environment.define on the current (head) frame. -/
def envDefine : List Frame → String → Value → IRType → List Frame
  | [], _, _, _ => []
  | f :: parents, n, v, t => f.define n v t :: parents

/-! ## Compiler state (src/Compiler.py fields)

mem is a ghost record of the value each storage address holds after the
stores emitted so far execute in order; it mirrors the straight-line store
semantics and lets theorems speak about the value a binding resolves to. -/

structure CState where
  funcs : List IRFunction
  cursor : Option (Nat × Nat)
  env : List Frame
  errors : List String
  nextReg : Nat
  mem : List (Nat × Value)
deriving DecidableEq

/-- Compiler.type_map; an unknown type name raises KeyError in Python. -/
def typeMap : String → Option IRType
  | "int" => some .i32
  | "flo" => some .f32
  | "bool" => some .i1
  | _ => none

/-- The global frame after __initialize_builtins: true and false are global
constants, and the recorded type is the global variable type, which in
llvmlite is the pointer-to-i1 type. -/
def initialEnv : List Frame :=
  [⟨[("true", (.globalRef "true", .pointer .i1)),
     ("false", (.globalRef "false", .pointer .i1))], "global"⟩]

def initialCompilerState : CState :=
  { funcs := [], cursor := none, env := initialEnv, errors := [],
    nextReg := 0, mem := [] }

/-! ## Builder operations (the llvmlite IRBuilder methods the pass calls)

Calling a builder method with no current block, or passing None where
llvmlite reads an attribute of the operand, is a Python exception, modelled
as Except.error. -/

def noBlockError : String := "AttributeError: the IRBuilder has no current block"

def noneOperandError : String := "AttributeError: NoneType object has no attribute type"

def getBlock (st : CState) : Except String BasicBlock :=
  match st.cursor with
  | none => .error noBlockError
  | some (fi, bi) =>
    match st.funcs.get? fi with
    | none => .error "IndexError: function index out of range"
    | some f =>
      match f.blocks.get? bi with
      | none => .error "IndexError: block index out of range"
      | some b => .ok b

def appendInstr (i : Instr) (st : CState) : Except String CState :=
  match st.cursor with
  | none => .error noBlockError
  | some (fi, bi) =>
    match st.funcs.get? fi with
    | none => .error "IndexError: function index out of range"
    | some f =>
      match f.blocks.get? bi with
      | none => .error "IndexError: block index out of range"
      | some b =>
        let b2 : BasicBlock := { b with instrs := b.instrs ++ [i] }
        let f2 : IRFunction := { f with blocks := f.blocks.set bi b2 }
        .ok { st with funcs := st.funcs.set fi f2 }

def updateMem : List (Nat × Value) → Nat → Value → List (Nat × Value)
  | [], a, v => [(a, v)]
  | (k, old) :: rest, a, v =>
    if k = a then (a, v) :: rest else (k, old) :: updateMem rest a v

def memLookup : List (Nat × Value) → Nat → Option Value
  | [], _ => none
  | (k, v) :: rest, a => if k = a then some v else memLookup rest a

def memStore (dst v : Value) (mem : List (Nat × Value)) : List (Nat × Value) :=
  match dst with
  | .ptr a => updateMem mem a v
  | _ => mem

def buildAlloca (ty : IRType) (st : CState) : Except String (Value × CState) :=
  match appendInstr (.alloca st.nextReg ty) st with
  | .error e => .error e
  | .ok st1 => .ok (.ptr st.nextReg, { st1 with nextReg := st.nextReg + 1 })

def buildStore (v : Option Value) (dst : Value) (st : CState) : Except String CState :=
  match v with
  | none => .error noneOperandError
  | some v =>
    match appendInstr (.store v dst) st with
    | .error e => .error e
    | .ok st1 => .ok { st1 with mem := memStore dst v st1.mem }

def buildLoad (src : Value) (st : CState) : Except String (Value × CState) :=
  match appendInstr (.load st.nextReg src) st with
  | .error e => .error e
  | .ok st1 => .ok (.reg st.nextReg, { st1 with nextReg := st.nextReg + 1 })

def buildBinop (op : BinOp) (l r : Option Value) (st : CState) :
    Except String (Value × CState) :=
  match l, r with
  | some l, some r =>
    match appendInstr (.binop st.nextReg op l r) st with
    | .error e => .error e
    | .ok st1 => .ok (.reg st.nextReg, { st1 with nextReg := st.nextReg + 1 })
  | _, _ => .error noneOperandError

def buildICmp (op : String) (l r : Option Value) (st : CState) :
    Except String (Value × CState) :=
  match l, r with
  | some l, some r =>
    match appendInstr (.icmpSigned st.nextReg op l r) st with
    | .error e => .error e
    | .ok st1 => .ok (.reg st.nextReg, { st1 with nextReg := st.nextReg + 1 })
  | _, _ => .error noneOperandError

def buildFCmp (op : String) (l r : Option Value) (st : CState) :
    Except String (Value × CState) :=
  match l, r with
  | some l, some r =>
    match appendInstr (.fcmpOrdered st.nextReg op l r) st with
    | .error e => .error e
    | .ok st1 => .ok (.reg st.nextReg, { st1 with nextReg := st.nextReg + 1 })
  | _, _ => .error noneOperandError

def buildRet (v : Option Value) (st : CState) : Except String CState :=
  match v with
  | none => .error noneOperandError
  | some v => appendInstr (.ret v) st

def buildBr (target : Nat) (st : CState) : Except String CState :=
  appendInstr (.br target) st

def buildCBr (cond : Option Value) (t f : Nat) (st : CState) : Except String CState :=
  match cond with
  | none => .error noneOperandError
  | some c => appendInstr (.cbr c t f) st

/-- IRBuilder.append_basic_block: append a fresh block to the builder's
current function and return its index. -/
def appendBlock (bn : String) (st : CState) : Except String (Nat × CState) :=
  match st.cursor with
  | none => .error noBlockError
  | some (fi, _) =>
    match st.funcs.get? fi with
    | none => .error "IndexError: function index out of range"
    | some f =>
      let f2 : IRFunction := { f with blocks := f.blocks ++ [⟨bn, []⟩] }
      .ok (f.blocks.length, { st with funcs := st.funcs.set fi f2 })

/-- IRBuilder.position_at_end on a block of the current function. -/
def positionAtEnd (bi : Nat) (st : CState) : CState :=
  match st.cursor with
  | none => st
  | some (fi, _) => { st with cursor := some (fi, bi) }

/-! ## Expression lowering (__resolve_value and __visit_infix_expression) -/

/-- The body of __visit_infix_expression after both operands are resolved:
select the instruction family from the operand type categories.  With
mismatched or missing categories neither branch applies and (None, None)
is returned with no instruction and no diagnostic. -/
def infixCore (op : String) (lv : Option Value) (lt : Option IRType)
    (rv : Option Value) (rt : Option IRType) (st : CState) :
    Except String ((Option Value × Option IRType) × CState) :=
  if (rt.map IRType.isIntType).getD false ∧ (lt.map IRType.isIntType).getD false then
    match op with
    | "+" =>
      match buildBinop .add lv rv st with
      | .error e => .error e
      | .ok (v, st1) => .ok ((some v, some .i32), st1)
    | "-" =>
      match buildBinop .sub lv rv st with
      | .error e => .error e
      | .ok (v, st1) => .ok ((some v, some .i32), st1)
    | "*" =>
      match buildBinop .mul lv rv st with
      | .error e => .error e
      | .ok (v, st1) => .ok ((some v, some .i32), st1)
    | "/" =>
      match buildBinop .sdiv lv rv st with
      | .error e => .error e
      | .ok (v, st1) => .ok ((some v, some .i32), st1)
    | "%" =>
      match buildBinop .srem lv rv st with
      | .error e => .error e
      | .ok (v, st1) => .ok ((some v, some .i32), st1)
    | "<" =>
      match buildICmp "<" lv rv st with
      | .error e => .error e
      | .ok (v, st1) => .ok ((some v, some .i1), st1)
    | "<=" =>
      match buildICmp "<=" lv rv st with
      | .error e => .error e
      | .ok (v, st1) => .ok ((some v, some .i1), st1)
    | ">" =>
      match buildICmp ">" lv rv st with
      | .error e => .error e
      | .ok (v, st1) => .ok ((some v, some .i1), st1)
    | ">=" =>
      match buildICmp ">=" lv rv st with
      | .error e => .error e
      | .ok (v, st1) => .ok ((some v, some .i1), st1)
    | "==" =>
      match buildICmp "==" lv rv st with
      | .error e => .error e
      | .ok (v, st1) => .ok ((some v, some .i1), st1)
    | _ => .ok ((none, some .i32), st)
  else if (rt.map IRType.isFloatType).getD false ∧ (lt.map IRType.isFloatType).getD false then
    match op with
    | "+" =>
      match buildBinop .fadd lv rv st with
      | .error e => .error e
      | .ok (v, st1) => .ok ((some v, some .f32), st1)
    | "-" =>
      match buildBinop .fsub lv rv st with
      | .error e => .error e
      | .ok (v, st1) => .ok ((some v, some .f32), st1)
    | "*" =>
      match buildBinop .fmul lv rv st with
      | .error e => .error e
      | .ok (v, st1) => .ok ((some v, some .f32), st1)
    | "/" =>
      match buildBinop .fdiv lv rv st with
      | .error e => .error e
      | .ok (v, st1) => .ok ((some v, some .f32), st1)
    | "%" =>
      match buildBinop .frem lv rv st with
      | .error e => .error e
      | .ok (v, st1) => .ok ((some v, some .f32), st1)
    | "<" =>
      match buildFCmp "<" lv rv st with
      | .error e => .error e
      | .ok (v, st1) => .ok ((some v, some .i1), st1)
    | "<=" =>
      match buildFCmp "<=" lv rv st with
      | .error e => .error e
      | .ok (v, st1) => .ok ((some v, some .i1), st1)
    | ">" =>
      match buildFCmp ">" lv rv st with
      | .error e => .error e
      | .ok (v, st1) => .ok ((some v, some .i1), st1)
    | ">=" =>
      match buildFCmp ">=" lv rv st with
      | .error e => .error e
      | .ok (v, st1) => .ok ((some v, some .i1), st1)
    | "==" =>
      match buildFCmp "==" lv rv st with
      | .error e => .error e
      | .ok (v, st1) => .ok ((some v, some .i1), st1)
    | _ => .ok ((none, some .f32), st)
  else
    .ok ((none, none), st)

/-- Fuel exhaustion marker.  The recursion of the lowering pass is
structural on the syntax tree; Lean's structural-recursion checker does not
accept it across the nested Expr / Option Expr and Stmt / List Stmt
boundaries, so the recursive lowering functions carry explicit fuel exactly
like the parser.  Fuel exhaustion is a distinguished error that no theorem
ever treats as program behaviour; any fuel larger than the tree size gives
the exact lowering of the Python code. -/
def outOfFuel : String := "OutOfFuel"

mutual

/-- __resolve_value: literals carry their intrinsic value and type, an
identifier is looked up through the scope chain and loaded (an unbound one
raises the Python TypeError from unpacking None), an infix node is
dispatched to __visit_infix_expression. -/
def resolveValue : Nat → Expr → CState → Except String ((Option Value × Option IRType) × CState)
  | 0, _, _ => .error outOfFuel
  | _fuel+1, .intLit n, st => .ok ((some (.constI32 n), some .i32), st)
  | _fuel+1, .floatLit q, st => .ok ((some (.constF32 q), some .f32), st)
  | _fuel+1, .identLit n, st =>
    match envLookup st.env n with
    | none => .error "TypeError: cannot unpack non-iterable NoneType object"
    | some (p, ty) =>
      match buildLoad p st with
      | .error e => .error e
      | .ok (v, st1) => .ok ((some v, some ty), st1)
  | _fuel+1, .boolLit b, st => .ok ((some (.constI1 (if b then 1 else 0)), some .i1), st)
  | fuel+1, .infixExpr l op r, st => visitInfixExpression fuel l op r st

/-- __visit_infix_expression: resolve the left child, resolve the right
child, then emit per the operand categories (infixCore). -/
def visitInfixExpression : Nat → Option Expr → String → Option Expr → CState →
    Except String ((Option Value × Option IRType) × CState)
  | 0, _, _, _, _ => .error outOfFuel
  | fuel+1, l, op, r, st =>
    match resolveValueOpt fuel l st with
    | .error e => .error e
    | .ok ((lv, lt), st1) =>
      match resolveValueOpt fuel r st1 with
      | .error e => .error e
      | .ok ((rv, rt), st2) => infixCore op lv lt rv rt st2

/-- __resolve_value applied to an optional child node; resolving None
raises AttributeError in Python (None.type()). -/
def resolveValueOpt : Nat → Option Expr → CState → Except String ((Option Value × Option IRType) × CState)
  | 0, _, _ => .error outOfFuel
  | _fuel+1, none, _ => .error noneOperandError
  | fuel+1, some e, st => resolveValue fuel e st

end

/-! ## Statement lowering

Statement lowering recurses through blocks, nested functions and both arms
of an if, with the same fuel discipline as expression lowering. -/

mutual

def compileStmt : Nat → Stmt → CState → Except String CState
  | 0, _, _ => .error outOfFuel
  | fuel+1, Stmt.exprStmt e, st =>
    match e with
    | some (.infixExpr l op r) =>
      match visitInfixExpression fuel l op r st with
      | .error err => .error err
      | .ok (_, st1) => .ok st1
    | some _ => .ok st
    | none => .error noneOperandError
  | fuel+1, .varStmt name _vt value, st =>
    match value with
    | none => .error noneOperandError
    | some vexpr =>
      match resolveValue fuel vexpr st with
      | .error e => .error e
      | .ok ((v, ty), st1) =>
        match envLookup st1.env name with
        | none =>
          match ty with
          | none => .error noneOperandError
          | some ty =>
            match buildAlloca ty st1 with
            | .error e => .error e
            | .ok (p, st2) =>
              match buildStore v p st2 with
              | .error e => .error e
              | .ok st3 => .ok { st3 with env := envDefine st3.env name p ty }
        | some (p, _) => buildStore v p st1
  | fuel+1, .blockStmt stmts, st => visitBlockStmts fuel stmts st
  | fuel+1, .retStmt rv, st =>
    match resolveValueOpt fuel rv st with
    | .error e => .error e
    | .ok ((v, _), st1) =>
      match getBlock st1 with
      | .error e => .error e
      | .ok b =>
        match b.terminator with
        | none => buildRet v st1
        | some _ => .ok st1
  | fuel+1, .funcStmt name rt body, st =>
    match typeMap rt with
    | none => .error "KeyError: unknown type name"
    | some retTy =>
      match
        visitBlockStmts fuel body
          { st with
            funcs := st.funcs ++ [⟨name, retTy, [⟨name ++ "_entry", []⟩]⟩],
            cursor := some (st.funcs.length, 0),
            env := Frame.define ⟨[], "global"⟩ name (.funcRef name) retTy :: st.env }
      with
      | .error e => .error e
      | .ok st2 =>
        .ok { st2 with
          env := envDefine st2.env.tail name (.funcRef name) retTy,
          cursor := st.cursor }
  | fuel+1, .assignStmt name rv, st =>
    match resolveValueOpt fuel rv st with
    | .error e => .error e
    | .ok ((v, _), st1) =>
      match envLookup st1.env name with
      | none => .ok { st1 with errors := st1.errors ++
          ["CompilerError: identifier " ++ name ++ " has not been declared before it was re-assigned"] }
      | some (p, _) => buildStore v p st1
  | fuel+1, .ifStmt cond cons alt, st =>
    match resolveValue fuel cond st with
    | .error e => .error e
    | .ok ((test, _), st1) =>
      match alt with
      | none =>
        match appendBlock "if" st1 with
        | .error e => .error e
        | .ok (ti, st2) =>
          match appendBlock "endif" st2 with
          | .error e => .error e
          | .ok (mi, st3) =>
            match buildCBr test ti mi st3 with
            | .error e => .error e
            | .ok st4 =>
              match compileStmt fuel cons (positionAtEnd ti st4) with
              | .error e => .error e
              | .ok st5 =>
                match getBlock st5 with
                | .error e => .error e
                | .ok b =>
                  match b.terminator with
                  | none =>
                    match buildBr mi st5 with
                    | .error e => .error e
                    | .ok st6 => .ok (positionAtEnd mi st6)
                  | some _ => .ok (positionAtEnd mi st5)
      | some altStmt =>
        match appendBlock "if.then" st1 with
        | .error e => .error e
        | .ok (ti, st2) =>
          match appendBlock "if.else" st2 with
          | .error e => .error e
          | .ok (ei, st3) =>
            match appendBlock "if.merge" st3 with
            | .error e => .error e
            | .ok (mi, st4) =>
              match buildCBr test ti ei st4 with
              | .error e => .error e
              | .ok st5 =>
                match compileStmt fuel cons (positionAtEnd ti st5) with
                | .error e => .error e
                | .ok st6 =>
                  match getBlock st6 with
                  | .error e => .error e
                  | .ok b =>
                    match
                      (match b.terminator with
                       | none => buildBr mi st6
                       | some _ => .ok st6 : Except String CState)
                    with
                    | .error e => .error e
                    | .ok st7 =>
                      match compileStmt fuel altStmt (positionAtEnd ei st7) with
                      | .error e => .error e
                      | .ok st8 =>
                        match getBlock st8 with
                        | .error e => .error e
                        | .ok b2 =>
                          match
                            (match b2.terminator with
                             | none => buildBr mi st8
                             | some _ => .ok st8 : Except String CState)
                          with
                          | .error e => .error e
                          | .ok st9 => .ok (positionAtEnd mi st9)

/-- __visit_block_statement: lower in order, stopping (without error) as
soon as the current block has a terminator. -/
def visitBlockStmts : Nat → List Stmt → CState → Except String CState
  | 0, _, _ => .error outOfFuel
  | _fuel+1, [], st => .ok st
  | fuel+1, s :: rest, st =>
    match getBlock st with
    | .error e => .error e
    | .ok b =>
      match b.terminator with
      | some _ => .ok st
      | none =>
        match compileStmt fuel s st with
        | .error e => .error e
        | .ok st1 => visitBlockStmts fuel rest st1

end

/-- __visit_program: lower every top-level statement in order (with fuel
passed through unchanged to each statement). -/
def compileProgram (fuel : Nat) : List Stmt → CState → Except String CState
  | [], st => .ok st
  | s :: rest, st =>
    match compileStmt fuel s st with
    | .error e => .error e
    | .ok st1 => compileProgram fuel rest st1

/-! ## Concrete fixtures used by the theorems -/

/-- A state in the middle of lowering a function: one function whose entry
block is still empty, the builder positioned on it, and only the builtin
global frame in scope.  This is exactly the state reached after lowering
the head of fn main() -> int before its body. -/
def midFunctionState : CState :=
  { funcs := [⟨"main", .i32, [⟨"main_entry", []⟩]⟩], cursor := some (0, 0),
    env := initialEnv, errors := [], nextReg := 0, mem := [] }

/-- midFunctionState with a boolean variable cond bound in the global frame,
its storage (address 0) holding true. -/
def condState : CState :=
  { funcs := [⟨"main", .i32, [⟨"main_entry", []⟩]⟩], cursor := some (0, 0),
    env := envDefine initialEnv "cond" (.ptr 0) .i1, errors := [],
    nextReg := 1, mem := [(0, .constI1 1)] }

/-- A state inside a function body whose own frame is still empty while the
enclosing frame binds x to storage address 5, currently holding 1. -/
def shadowState : CState :=
  { funcs := [⟨"main", .i32, [⟨"main_entry", []⟩]⟩], cursor := some (0, 0),
    env := [⟨[], "global"⟩, ⟨[("x", (.ptr 5, .i32))], "global"⟩],
    errors := [], nextReg := 6, mem := [(5, .constI32 1)] }

/-- The syntax tree of  if (cond) with ret 1; ret 2; as the two branches. -/
def ifRetThenElse : Stmt :=
  .ifStmt (.identLit "cond")
    (.blockStmt [.retStmt (some (.intLit 1))])
    (some (.blockStmt [.retStmt (some (.intLit 2))]))

/-- The same if shape with empty branches, to exhibit the bridge branch
that is emitted when a branch block has no terminator. -/
def ifEmptyThenElse : Stmt :=
  .ifStmt (.identLit "cond") (.blockStmt []) (some (.blockStmt []))

/-- The sum-level and product-level infix operators with their literals. -/
def sumProductOps : List (TokenType × String) :=
  [(.PLUS, "+"), (.MINUS, "-"), (.SLASH, "/"), (.ASTERISK, "*"), (.MODULUS, "%")]

/-- Token stream for  1 OP 2 OP 3 ;  with one operator kind. -/
def toks123 (op : TokenType × String) : List Token :=
  [⟨.INT, "1"⟩, ⟨op.1, op.2⟩, ⟨.INT, "2"⟩, ⟨op.1, op.2⟩, ⟨.INT, "3"⟩, ⟨.SEMICOLON, ";"⟩]

/-- The state produced by lowering  fn f() -> int with body ret 0;  from
the initial compiler state (used to witness the function-lowering
restoration theorem at a concrete input). -/
def c9Result : CState :=
  { funcs := [⟨"f", .i32, [⟨"f_entry", [.ret (.constI32 0)]⟩]⟩],
    cursor := none, env := envDefine initialEnv "f" (.funcRef "f") .i32,
    errors := [], nextReg := 0, mem := [] }

/-- A state whose current block already ends in a return terminator. -/
def terminatedState : CState :=
  { funcs := [⟨"main", .i32, [⟨"main_entry", [.ret (.constI32 1)]⟩]⟩],
    cursor := some (0, 0), env := initialEnv, errors := [], nextReg := 0,
    mem := [] }

/-! ## Supporting lemmas about the builder operations -/

theorem get?_set_self {α : Type} :
    ∀ (l : List α) (i : Nat) (a b : α), l.get? i = some b →
      (l.set i a).get? i = some a := by
  intro l
  induction l with
  | nil => intro i a b h; simp [List.get?] at h
  | cons x xs ih =>
    intro i a b h
    cases i with
    | zero => rfl
    | succ n => simpa using ih n a b (by simpa using h)

theorem appendInstr_effects (i : Instr) (st st' : CState)
    (h : appendInstr i st = .ok st') :
    st'.env = st.env ∧ st'.errors = st.errors ∧ st'.cursor = st.cursor ∧
    st'.mem = st.mem ∧ st'.nextReg = st.nextReg := by
  unfold appendInstr at h
  split at h
  · simp at h
  split at h
  · simp at h
  split at h
  · simp at h
  simp only [Except.ok.injEq] at h
  subst h
  exact ⟨rfl, rfl, rfl, rfl, rfl⟩

/-- Appending at a valid cursor succeeds, extends exactly the current
block, and leaves every other state component unchanged. -/
theorem appendInstr_spec (st : CState) (b : BasicBlock) (i : Instr)
    (hb : getBlock st = .ok b) :
    ∃ st', appendInstr i st = .ok st' ∧
      getBlock st' = .ok ⟨b.name, b.instrs ++ [i]⟩ ∧
      st'.cursor = st.cursor ∧ st'.env = st.env ∧ st'.errors = st.errors ∧
      st'.nextReg = st.nextReg ∧ st'.mem = st.mem := by
  unfold getBlock at hb
  split at hb
  · simp at hb
  rename_i fi bi hcur
  split at hb
  · simp at hb
  rename_i f hf
  split at hb
  · simp at hb
  rename_i bb hbk
  simp only [Except.ok.injEq] at hb
  subst hb
  refine ⟨{ st with
              funcs := st.funcs.set fi
                ⟨f.name, f.retType, f.blocks.set bi ⟨bb.name, bb.instrs ++ [i]⟩⟩ },
    ?_, ?_, rfl, rfl, rfl, rfl, rfl⟩
  · unfold appendInstr
    simp only [hcur, hf, hbk]
  · unfold getBlock
    simp only [hcur, get?_set_self _ _ _ _ hf, get?_set_self _ _ _ _ hbk]

theorem buildStore_spec (st : CState) (b : BasicBlock) (v p : Value)
    (hb : getBlock st = .ok b) :
    ∃ st', buildStore (some v) p st = .ok st' ∧
      getBlock st' = .ok ⟨b.name, b.instrs ++ [.store v p]⟩ ∧
      st'.cursor = st.cursor ∧ st'.env = st.env ∧ st'.errors = st.errors ∧
      st'.nextReg = st.nextReg ∧ st'.mem = memStore p v st.mem := by
  obtain ⟨st1, h1, hg, hc, he, herr, hn, hm⟩ := appendInstr_spec st b (.store v p) hb
  refine ⟨{ st1 with mem := memStore p v st1.mem }, ?_, ?_, hc, he, herr, hn, by rw [hm]⟩
  · unfold buildStore
    simp only [h1]
  · unfold getBlock at hg ⊢
    exact hg

theorem buildAlloca_spec (st : CState) (b : BasicBlock) (ty : IRType)
    (hb : getBlock st = .ok b) :
    ∃ st', buildAlloca ty st = .ok (.ptr st.nextReg, st') ∧
      getBlock st' = .ok ⟨b.name, b.instrs ++ [.alloca st.nextReg ty]⟩ ∧
      st'.cursor = st.cursor ∧ st'.env = st.env ∧ st'.errors = st.errors ∧
      st'.nextReg = st.nextReg + 1 ∧ st'.mem = st.mem := by
  obtain ⟨st1, h1, hg, hc, he, herr, hn, hm⟩ := appendInstr_spec st b (.alloca st.nextReg ty) hb
  refine ⟨{ st1 with nextReg := st.nextReg + 1 }, ?_, ?_, hc, he, herr, rfl, hm⟩
  · unfold buildAlloca
    simp only [h1]
  · unfold getBlock at hg ⊢
    exact hg

theorem memLookup_updateMem_self (mem : List (Nat × Value)) (a : Nat) (v : Value) :
    memLookup (updateMem mem a v) a = some v := by
  induction mem with
  | nil => simp [updateMem, memLookup]
  | cons kv rest ih =>
    obtain ⟨k, old⟩ := kv
    by_cases hk : k = a
    · simp [updateMem, hk, memLookup]
    · simp [updateMem, hk, memLookup, ih]

theorem buildLoad_effects (src : Value) (st : CState) (v : Value) (st' : CState)
    (h : buildLoad src st = .ok (v, st')) :
    st'.env = st.env ∧ st'.errors = st.errors := by
  unfold buildLoad at h
  split at h
  · simp at h
  rename_i st1 ha
  simp only [Except.ok.injEq, Prod.mk.injEq] at h
  obtain ⟨_, h2⟩ := h
  subst h2
  obtain ⟨he, herr, _, _, _⟩ := appendInstr_effects _ _ _ ha
  exact ⟨he, herr⟩

theorem buildBinop_effects (op : BinOp) (l r : Option Value) (st : CState)
    (v : Value) (st' : CState) (h : buildBinop op l r st = .ok (v, st')) :
    st'.env = st.env ∧ st'.errors = st.errors := by
  unfold buildBinop at h
  split at h
  · split at h
    · simp at h
    rename_i st1 ha
    simp only [Except.ok.injEq, Prod.mk.injEq] at h
    obtain ⟨_, h2⟩ := h
    subst h2
    obtain ⟨he, herr, _, _, _⟩ := appendInstr_effects _ _ _ ha
    exact ⟨he, herr⟩
  · simp at h

theorem buildICmp_effects (op : String) (l r : Option Value) (st : CState)
    (v : Value) (st' : CState) (h : buildICmp op l r st = .ok (v, st')) :
    st'.env = st.env ∧ st'.errors = st.errors := by
  unfold buildICmp at h
  split at h
  · split at h
    · simp at h
    rename_i st1 ha
    simp only [Except.ok.injEq, Prod.mk.injEq] at h
    obtain ⟨_, h2⟩ := h
    subst h2
    obtain ⟨he, herr, _, _, _⟩ := appendInstr_effects _ _ _ ha
    exact ⟨he, herr⟩
  · simp at h

theorem buildFCmp_effects (op : String) (l r : Option Value) (st : CState)
    (v : Value) (st' : CState) (h : buildFCmp op l r st = .ok (v, st')) :
    st'.env = st.env ∧ st'.errors = st.errors := by
  unfold buildFCmp at h
  split at h
  · split at h
    · simp at h
    rename_i st1 ha
    simp only [Except.ok.injEq, Prod.mk.injEq] at h
    obtain ⟨_, h2⟩ := h
    subst h2
    obtain ⟨he, herr, _, _, _⟩ := appendInstr_effects _ _ _ ha
    exact ⟨he, herr⟩
  · simp at h

theorem buildStore_effects (v : Option Value) (p : Value) (st st' : CState)
    (h : buildStore v p st = .ok st') :
    st'.env = st.env ∧ st'.errors = st.errors := by
  unfold buildStore at h
  split at h
  · simp at h
  split at h
  · simp at h
  rename_i st1 ha
  simp only [Except.ok.injEq] at h
  subst h
  obtain ⟨he, herr, _, _, _⟩ := appendInstr_effects _ _ _ ha
  exact ⟨he, herr⟩

theorem buildAlloca_effects (ty : IRType) (st : CState) (v : Value) (st' : CState)
    (h : buildAlloca ty st = .ok (v, st')) :
    st'.env = st.env ∧ st'.errors = st.errors := by
  unfold buildAlloca at h
  split at h
  · simp at h
  rename_i st1 ha
  simp only [Except.ok.injEq, Prod.mk.injEq] at h
  obtain ⟨_, h2⟩ := h
  subst h2
  obtain ⟨he, herr, _, _, _⟩ := appendInstr_effects _ _ _ ha
  exact ⟨he, herr⟩

theorem buildRet_effects (v : Option Value) (st st' : CState)
    (h : buildRet v st = .ok st') :
    st'.env = st.env ∧ st'.errors = st.errors := by
  unfold buildRet at h
  split at h
  · simp at h
  obtain ⟨he, herr, _, _, _⟩ := appendInstr_effects _ _ _ h
  exact ⟨he, herr⟩

theorem buildBr_effects (target : Nat) (st st' : CState)
    (h : buildBr target st = .ok st') :
    st'.env = st.env ∧ st'.errors = st.errors := by
  obtain ⟨he, herr, _, _, _⟩ := appendInstr_effects _ _ _ h
  exact ⟨he, herr⟩

theorem buildCBr_effects (cond : Option Value) (t f : Nat) (st st' : CState)
    (h : buildCBr cond t f st = .ok st') :
    st'.env = st.env ∧ st'.errors = st.errors := by
  unfold buildCBr at h
  split at h
  · simp at h
  obtain ⟨he, herr, _, _, _⟩ := appendInstr_effects _ _ _ h
  exact ⟨he, herr⟩

theorem appendBlock_effects (bn : String) (st : CState) (bi : Nat) (st' : CState)
    (h : appendBlock bn st = .ok (bi, st')) :
    st'.env = st.env ∧ st'.errors = st.errors := by
  unfold appendBlock at h
  split at h
  · simp at h
  split at h
  · simp at h
  simp only [Except.ok.injEq, Prod.mk.injEq] at h
  obtain ⟨_, h2⟩ := h
  subst h2
  exact ⟨rfl, rfl⟩

theorem positionAtEnd_env (bi : Nat) (st : CState) :
    (positionAtEnd bi st).env = st.env ∧ (positionAtEnd bi st).errors = st.errors := by
  unfold positionAtEnd
  split <;> exact ⟨rfl, rfl⟩

theorem envDefine_tail (E : List Frame) (n : String) (v : Value) (t : IRType) :
    (envDefine E n v t).tail = E.tail := by
  cases E <;> rfl

theorem infixCore_env (op : String) (lv : Option Value) (lt : Option IRType)
    (rv : Option Value) (rt : Option IRType) (st : CState)
    (r : Option Value × Option IRType) (st' : CState)
    (h : infixCore op lv lt rv rt st = .ok (r, st')) :
    st'.env = st.env ∧ st'.errors = st.errors := by
  unfold infixCore at h
  split at h
  · split at h <;>
      first
      | (simp only [Except.ok.injEq, Prod.mk.injEq] at h
         obtain ⟨_, h2⟩ := h
         subst h2
         exact ⟨rfl, rfl⟩)
      | (split at h
         · simp at h
         rename_i v1 st1 hbuild
         simp only [Except.ok.injEq, Prod.mk.injEq] at h
         obtain ⟨_, h2⟩ := h
         subst h2
         first
         | exact buildBinop_effects _ _ _ _ _ _ hbuild
         | exact buildICmp_effects _ _ _ _ _ _ hbuild
         | exact buildFCmp_effects _ _ _ _ _ _ hbuild)
  split at h
  · split at h <;>
      first
      | (simp only [Except.ok.injEq, Prod.mk.injEq] at h
         obtain ⟨_, h2⟩ := h
         subst h2
         exact ⟨rfl, rfl⟩)
      | (split at h
         · simp at h
         rename_i v1 st1 hbuild
         simp only [Except.ok.injEq, Prod.mk.injEq] at h
         obtain ⟨_, h2⟩ := h
         subst h2
         first
         | exact buildBinop_effects _ _ _ _ _ _ hbuild
         | exact buildICmp_effects _ _ _ _ _ _ hbuild
         | exact buildFCmp_effects _ _ _ _ _ _ hbuild)
  · simp only [Except.ok.injEq, Prod.mk.injEq] at h
    obtain ⟨_, h2⟩ := h
    subst h2
    exact ⟨rfl, rfl⟩

theorem resolve_env_preserved :
    ∀ fuel : Nat,
      (∀ (e : Expr) (st : CState) (r : Option Value × Option IRType) (st' : CState),
        resolveValue fuel e st = .ok (r, st') →
          st'.env = st.env ∧ st'.errors = st.errors) ∧
      (∀ (l : Option Expr) (op : String) (rn : Option Expr) (st : CState)
        (r : Option Value × Option IRType) (st' : CState),
        visitInfixExpression fuel l op rn st = .ok (r, st') →
          st'.env = st.env ∧ st'.errors = st.errors) ∧
      (∀ (oe : Option Expr) (st : CState) (r : Option Value × Option IRType) (st' : CState),
        resolveValueOpt fuel oe st = .ok (r, st') →
          st'.env = st.env ∧ st'.errors = st.errors) := by
  intro fuel
  induction fuel with
  | zero =>
    refine ⟨?_, ?_, ?_⟩
    · intro e st r st' h
      simp [resolveValue] at h
    · intro l op rn st r st' h
      simp [visitInfixExpression] at h
    · intro oe st r st' h
      simp [resolveValueOpt] at h
  | succ n ih =>
    obtain ⟨ihR, ihV, ihO⟩ := ih
    refine ⟨?_, ?_, ?_⟩
    · intro e st r st' h
      cases e with
      | intLit m =>
        simp only [resolveValue, Except.ok.injEq, Prod.mk.injEq] at h
        obtain ⟨_, h2⟩ := h
        subst h2
        exact ⟨rfl, rfl⟩
      | floatLit q =>
        simp only [resolveValue, Except.ok.injEq, Prod.mk.injEq] at h
        obtain ⟨_, h2⟩ := h
        subst h2
        exact ⟨rfl, rfl⟩
      | boolLit bv =>
        simp only [resolveValue, Except.ok.injEq, Prod.mk.injEq] at h
        obtain ⟨_, h2⟩ := h
        subst h2
        exact ⟨rfl, rfl⟩
      | identLit nm =>
        unfold resolveValue at h
        split at h
        · simp at h
        split at h
        · simp at h
        rename_i p ty hl v1 st1 hload
        simp only [Except.ok.injEq, Prod.mk.injEq] at h
        obtain ⟨_, h2⟩ := h
        subst h2
        exact buildLoad_effects _ _ _ _ hload
      | infixExpr l op rn =>
        unfold resolveValue at h
        exact ihV l op rn st r st' h
    · intro l op rn st r st' h
      unfold visitInfixExpression at h
      split at h
      · simp at h
      rename_i lv lt st1 hl
      split at h
      · simp at h
      rename_i rv rt st2 hr
      have h1 := ihO l st _ st1 hl
      have h2 := ihO rn st1 _ st2 hr
      have h3 := infixCore_env op lv lt rv rt st2 r st' h
      exact ⟨by rw [h3.1, h2.1, h1.1], by rw [h3.2, h2.2, h1.2]⟩
    · intro oe st r st' h
      cases oe with
      | none => simp [resolveValueOpt] at h
      | some e =>
        unfold resolveValueOpt at h
        exact ihR e st r st' h

theorem resolveValue_env (fuel : Nat) (e : Expr) (st : CState)
    (r : Option Value × Option IRType) (st' : CState)
    (h : resolveValue fuel e st = .ok (r, st')) :
    st'.env = st.env ∧ st'.errors = st.errors :=
  (resolve_env_preserved fuel).1 e st r st' h

theorem resolveValueOpt_env (fuel : Nat) (oe : Option Expr) (st : CState)
    (r : Option Value × Option IRType) (st' : CState)
    (h : resolveValueOpt fuel oe st = .ok (r, st')) :
    st'.env = st.env ∧ st'.errors = st.errors :=
  (resolve_env_preserved fuel).2.2 oe st r st' h

theorem visitInfix_env (fuel : Nat) (l : Option Expr) (op : String) (r : Option Expr)
    (st : CState) (res : Option Value × Option IRType) (st' : CState)
    (h : visitInfixExpression fuel l op r st = .ok (res, st')) :
    st'.env = st.env ∧ st'.errors = st.errors :=
  (resolve_env_preserved fuel).2.1 l op r st res st' h

/-- Lowering a statement never changes the frames below the current one:
define only ever writes the head frame, and the push performed for a
function body is popped on exit.  This is the fact that justifies the pop
in the funcStmt case standing for Python restoring the saved environment
reference. -/
theorem compile_env_tail :
    ∀ fuel : Nat,
      (∀ (s : Stmt) (st st' : CState), compileStmt fuel s st = .ok st' →
        st'.env.tail = st.env.tail) ∧
      (∀ (ss : List Stmt) (st st' : CState), visitBlockStmts fuel ss st = .ok st' →
        st'.env.tail = st.env.tail) := by
  intro fuel
  induction fuel with
  | zero =>
    constructor
    · intro s st st' h
      simp [compileStmt] at h
    · intro ss st st' h
      simp [visitBlockStmts] at h
  | succ n ih =>
    obtain ⟨ihS, ihB⟩ := ih
    constructor
    · intro s st st' h
      cases s with
      | exprStmt e =>
        unfold compileStmt at h
        split at h <;>
          first
          | exact Except.noConfusion h
          | (simp only [Except.ok.injEq] at h
             subst h
             rfl)
          | (split at h
             · simp at h
             · rename_i res st1 hv
               simp only [Except.ok.injEq] at h
               subst h
               rw [(visitInfix_env n _ _ _ st res st1 hv).1])
      | varStmt name vt value =>
        unfold compileStmt at h
        split at h
        · simp at h
        rename_i vexpr
        split at h
        · simp at h
        rename_i v ty st1 hres
        split at h
        · split at h
          · simp at h
          rename_i ty2
          split at h
          · simp at h
          rename_i p st2 ha
          split at h
          · simp at h
          rename_i st3 hs
          simp only [Except.ok.injEq] at h
          subst h
          show (envDefine st3.env name p ty2).tail = st.env.tail
          rw [envDefine_tail, (buildStore_effects _ _ _ _ hs).1,
            (buildAlloca_effects _ _ _ _ ha).1,
            (resolveValue_env n vexpr st _ st1 hres).1]
        · rename_i p bty hsome
          rw [(buildStore_effects _ _ _ _ h).1,
            (resolveValue_env n vexpr st _ st1 hres).1]
      | blockStmt stmts =>
        unfold compileStmt at h
        exact ihB stmts st st' h
      | retStmt rv =>
        unfold compileStmt at h
        split at h
        · simp at h
        rename_i v ty st1 hres
        split at h
        · simp at h
        rename_i b hgb
        split at h
        · rw [(buildRet_effects _ _ _ h).1,
            (resolveValueOpt_env n rv st _ st1 hres).1]
        · simp only [Except.ok.injEq] at h
          subst h
          rw [(resolveValueOpt_env n rv st _ st1 hres).1]
      | funcStmt name rt body =>
        unfold compileStmt at h
        split at h
        · simp at h
        rename_i retTy hty
        split at h
        · simp at h
        rename_i st2 hv
        simp only [Except.ok.injEq] at h
        subst h
        show (envDefine st2.env.tail name (.funcRef name) retTy).tail = st.env.tail
        have ht : st2.env.tail = st.env := ihB body _ st2 hv
        rw [envDefine_tail, ht]
      | assignStmt name rv =>
        unfold compileStmt at h
        split at h
        · simp at h
        rename_i v ty st1 hres
        split at h
        · simp only [Except.ok.injEq] at h
          subst h
          show st1.env.tail = st.env.tail
          rw [(resolveValueOpt_env n rv st _ st1 hres).1]
        · rename_i p bty hsome
          rw [(buildStore_effects _ _ _ _ h).1,
            (resolveValueOpt_env n rv st _ st1 hres).1]
      | ifStmt cond cons alt =>
        unfold compileStmt at h
        split at h
        · simp at h
        rename_i test ty st1 hres
        have e1 : st1.env = st.env := (resolveValue_env n cond st _ st1 hres).1
        split at h
        · -- alternative is None (if_then shape)
          split at h
          · simp at h
          rename_i ti st2 hab1
          split at h
          · simp at h
          rename_i mi st3 hab2
          split at h
          · simp at h
          rename_i st4 hcb
          split at h
          · simp at h
          rename_i st5 hcons
          split at h
          · simp at h
          rename_i b hgb
          have e2 : st2.env = st1.env := (appendBlock_effects _ _ _ _ hab1).1
          have e3 : st3.env = st2.env := (appendBlock_effects _ _ _ _ hab2).1
          have e4 : st4.env = st3.env := (buildCBr_effects _ _ _ _ _ hcb).1
          have t5 : st5.env.tail = st4.env.tail := by
            have hq := ihS cons _ st5 hcons
            rwa [(positionAtEnd_env ti st4).1] at hq
          split at h
          · split at h
            · simp at h
            rename_i st6 hbr
            simp only [Except.ok.injEq] at h
            subst h
            rw [(positionAtEnd_env mi st6).1, (buildBr_effects _ _ _ hbr).1, t5,
              e4, e3, e2, e1]
          · simp only [Except.ok.injEq] at h
            subst h
            rw [(positionAtEnd_env mi st5).1, t5, e4, e3, e2, e1]
        · -- alternative present
          rename_i altStmt
          split at h
          · simp at h
          rename_i ti st2 hab1
          split at h
          · simp at h
          rename_i ei st3 hab2
          split at h
          · simp at h
          rename_i mi st4 hab3
          split at h
          · simp at h
          rename_i st5 hcb
          split at h
          · simp at h
          rename_i st6 hcons
          split at h
          · simp at h
          rename_i b hgb
          split at h
          · simp at h
          rename_i st7 hbridge
          split at h
          · simp at h
          rename_i st8 halt
          split at h
          · simp at h
          rename_i b2 hgb2
          split at h
          · simp at h
          rename_i st9 hbridge2
          simp only [Except.ok.injEq] at h
          subst h
          have e2 : st2.env = st1.env := (appendBlock_effects _ _ _ _ hab1).1
          have e3 : st3.env = st2.env := (appendBlock_effects _ _ _ _ hab2).1
          have e4 : st4.env = st3.env := (appendBlock_effects _ _ _ _ hab3).1
          have e5 : st5.env = st4.env := (buildCBr_effects _ _ _ _ _ hcb).1
          have t6 : st6.env.tail = st5.env.tail := by
            have hq := ihS cons _ st6 hcons
            rwa [(positionAtEnd_env ti st5).1] at hq
          have e7 : st7.env = st6.env := by
            split at hbridge
            · exact (buildBr_effects _ _ _ hbridge).1
            · simp only [Except.ok.injEq] at hbridge
              subst hbridge
              rfl
          have t8 : st8.env.tail = st7.env.tail := by
            have hq := ihS altStmt _ st8 halt
            rwa [(positionAtEnd_env ei st7).1] at hq
          have e9 : st9.env = st8.env := by
            split at hbridge2
            · exact (buildBr_effects _ _ _ hbridge2).1
            · simp only [Except.ok.injEq] at hbridge2
              subst hbridge2
              rfl
          rw [(positionAtEnd_env mi st9).1, e9, t8, e7, t6, e5, e4, e3, e2, e1]
    · intro ss st st' h
      cases ss with
      | nil =>
        unfold visitBlockStmts at h
        simp only [Except.ok.injEq] at h
        subst h
        rfl
      | cons s rest =>
        unfold visitBlockStmts at h
        split at h
        · simp at h
        rename_i b hgb
        split at h
        · simp only [Except.ok.injEq] at h
          subst h
          rfl
        split at h
        · simp at h
        rename_i st1 hs
        have t1 := ihS s st st1 hs
        have t2 := ihB rest st1 st' h
        rw [t2, t1]

/-! ## Theorems settling the claims -/

/-- C1: lowering  if (cond) with ret 1; / ret 2; branches from a
mid-function state emits a conditional branch into fresh then and else
blocks; each branch block ends with exactly one terminator (its ret) and no
unconditional branch to the merge block is appended after either ret; the
merge block stays terminator-free and becomes the cursor.  By contrast,
when a branch block is left without a terminator, the bridge branch to
merge is appended — the terminator check governs the bridging. -/
theorem ifElse_terminator_discipline :
    ((compileStmt 8 ifRetThenElse condState).toOption.map
        (fun st => (st.funcs, st.cursor, st.errors)) =
      some ([⟨"main", .i32,
        [⟨"main_entry", [.load 1 (.ptr 0), .cbr (.reg 1) 1 2]⟩,
         ⟨"if.then", [.ret (.constI32 1)]⟩,
         ⟨"if.else", [.ret (.constI32 2)]⟩,
         ⟨"if.merge", []⟩]⟩], some (0, 3), [])) ∧
    BasicBlock.termCount ⟨"if.then", [.ret (.constI32 1)]⟩ = 1 ∧
    BasicBlock.termCount ⟨"if.else", [.ret (.constI32 2)]⟩ = 1 ∧
    BasicBlock.terminator ⟨"if.merge", ([] : List Instr)⟩ = none ∧
    ((compileStmt 8 ifEmptyThenElse condState).toOption.map
        (fun st => (st.funcs.get? 0).map IRFunction.blocks) =
      some (some
        [⟨"main_entry", [.load 1 (.ptr 0), .cbr (.reg 1) 1 2]⟩,
         ⟨"if.then", [.br 3]⟩,
         ⟨"if.else", [.br 3]⟩,
         ⟨"if.merge", []⟩])) :=
  ⟨rfl, rfl, rfl, rfl, rfl⟩

/-- C2 counterexample: lowering  var x: int = 2;  inside a function frame
that does not bind x while the enclosing frame binds x to storage address 5
holding 1 creates no inner binding (the function frame stays empty) and
stores 2 into the enclosing binding's storage, which therefore does not
keep its old value. -/
theorem var_shadowing_counterexample :
    ((compileStmt 4 (.varStmt "x" "int" (some (.intLit 2))) shadowState).toOption.map
        (fun st => (st.env, st.mem, (st.funcs.get? 0).map IRFunction.blocks)) =
      some ([⟨[], "global"⟩, ⟨[("x", (.ptr 5, .i32))], "global"⟩],
        [(5, .constI32 2)],
        some [⟨"main_entry", [.store (.constI32 2) (.ptr 5)]⟩])) ∧
    memLookup shadowState.mem 5 = some (.constI32 1) :=
  ⟨rfl, rfl⟩

/-- C2 amended: a var declaration whose name is bound in no reachable frame
allocates fresh storage, stores the initial value there, and binds the name
in the current frame; a var declaration whose name is bound in some
reachable frame (the current frame or an enclosing one) instead stores the
value into that binding's existing storage and creates no new binding. -/
theorem var_decl_scope_amended
    (fuel : Nat) (name vt : String) (value : Expr) (st st1 : CState)
    (v : Value) (ty : IRType) (b : BasicBlock)
    (hres : resolveValue fuel value st = .ok ((some v, some ty), st1))
    (hb : getBlock st1 = .ok b) :
    (envLookup st1.env name = none →
      ∃ st', compileStmt (fuel + 1) (.varStmt name vt (some value)) st = .ok st' ∧
        st'.env = envDefine st1.env name (.ptr st1.nextReg) ty ∧
        getBlock st' = .ok ⟨b.name, b.instrs ++
          [.alloca st1.nextReg ty, .store v (.ptr st1.nextReg)]⟩ ∧
        memLookup st'.mem st1.nextReg = some v ∧
        st'.errors = st1.errors ∧ st'.cursor = st1.cursor) ∧
    (∀ p bty, envLookup st1.env name = some (p, bty) →
      ∃ st', compileStmt (fuel + 1) (.varStmt name vt (some value)) st = .ok st' ∧
        st'.env = st1.env ∧
        getBlock st' = .ok ⟨b.name, b.instrs ++ [.store v p]⟩ ∧
        st'.mem = memStore p v st1.mem ∧
        st'.errors = st1.errors ∧ st'.cursor = st1.cursor) := by
  constructor
  · intro hnone
    obtain ⟨st2, ha, hg2, hc2, he2, herr2, hn2, hm2⟩ := buildAlloca_spec st1 b ty hb
    obtain ⟨st3, hs, hg3, hc3, he3, herr3, hn3, hm3⟩ :=
      buildStore_spec st2 ⟨b.name, b.instrs ++ [.alloca st1.nextReg ty]⟩ v
        (.ptr st1.nextReg) hg2
    refine ⟨{ st3 with env := envDefine st3.env name (.ptr st1.nextReg) ty },
      ?_, ?_, ?_, ?_, ?_, ?_⟩
    · simp only [compileStmt, hres, hnone, ha, hs]
    · rw [he3, he2]
    · show getBlock st3 = _
      rw [hg3]
      simp
    · show memLookup st3.mem st1.nextReg = some v
      rw [hm3, hm2]
      show memLookup (updateMem st1.mem st1.nextReg v) st1.nextReg = some v
      exact memLookup_updateMem_self _ _ _
    · show st3.errors = st1.errors
      rw [herr3, herr2]
    · show st3.cursor = st1.cursor
      rw [hc3, hc2]
  · intro p bty hsome
    obtain ⟨st2, hs, hg2, hc2, he2, herr2, hn2, hm2⟩ := buildStore_spec st1 b v p hb
    refine ⟨st2, ?_, he2, hg2, hm2, herr2, hc2⟩
    simp only [compileStmt, hres, hsome, hs]

/-- C2 witness: the amended theorem applied to  var z: int = 7;  in a state
where no frame binds z. -/
theorem var_decl_scope_amended_witness :
    ((compileStmt 3 (.varStmt "z" "int" (some (.intLit 7))) midFunctionState).toOption.map
      (fun st' => (st'.env, st'.errors))) =
      some (envDefine initialEnv "z" (.ptr 0) .i32, []) := by
  obtain ⟨st', hok, henv, hg, hmem, herr, hc⟩ :=
    (var_decl_scope_amended 2 "z" "int" (.intLit 7) midFunctionState midFunctionState
      (.constI32 7) .i32 ⟨"main_entry", []⟩ rfl rfl).1 rfl
  rw [hok]
  simp only [Except.toOption, Option.map, henv, herr]
  rfl

/-- C3: a binary operation between an integer operand and a floating
operand emits no instruction, appends no diagnostic, and returns the
unusable pair (None, None) — the state is returned entirely unchanged. -/
theorem incompatible_infix_silent :
    visitInfixExpression 3 (some (.intLit 1)) "+" (some (.floatLit (5/2)))
      midFunctionState = .ok ((none, none), midFunctionState) := rfl

/-- C4: resolving a reference to an identifier that no frame binds raises
the Python TypeError from unpacking None (Environment.lookup returns None
and __resolve_value unpacks it), aborting the pass instead of recording a
diagnostic — shown for a bare reference, a var initializer and an infix
operand. -/
theorem undeclared_identifier_reference_crashes :
    resolveValue 2 (.identLit "y") midFunctionState
        = .error "TypeError: cannot unpack non-iterable NoneType object" ∧
    compileStmt 2 (.varStmt "a" "int" (some (.identLit "y"))) midFunctionState
        = .error "TypeError: cannot unpack non-iterable NoneType object" ∧
    compileStmt 4
        (.exprStmt (some (.infixExpr (some (.identLit "y")) "+" (some (.intLit 1)))))
        midFunctionState
        = .error "TypeError: cannot unpack non-iterable NoneType object" :=
  ⟨rfl, rfl, rfl⟩

/-- C5 counterexample: for the assignment  x = y;  whose target x is bound
in no frame, lowering does not append exactly one diagnostic and continue —
it crashes while resolving the right-hand side (the C4 defect), appending
no diagnostic at all. -/
theorem assign_unbound_crash_counterexample :
    compileStmt 4 (.assignStmt "x" (some (.identLit "y"))) midFunctionState
        = .error "TypeError: cannot unpack non-iterable NoneType object" ∧
    midFunctionState.errors = [] :=
  ⟨rfl, rfl⟩

/-- C5 amended: provided the right-hand side itself resolves to a value
without crashing, an assignment to a name bound in no reachable frame
appends exactly one semantic diagnostic and emits no store instruction
(the state is otherwise untouched), and an assignment to a bound name
stores the resolved value into that binding's existing storage and appends
no diagnostic. -/
theorem assign_lowering_amended
    (fuel : Nat) (name : String) (rv : Expr) (st st1 : CState)
    (v : Value) (ty? : Option IRType)
    (hres : resolveValue fuel rv st = .ok ((some v, ty?), st1)) :
    (envLookup st1.env name = none →
      compileStmt (fuel + 2) (.assignStmt name (some rv)) st =
        .ok { st1 with errors := st1.errors ++
          ["CompilerError: identifier " ++ name ++
            " has not been declared before it was re-assigned"] }) ∧
    (∀ p bty b, envLookup st1.env name = some (p, bty) → getBlock st1 = .ok b →
      ∃ st', compileStmt (fuel + 2) (.assignStmt name (some rv)) st = .ok st' ∧
        getBlock st' = .ok ⟨b.name, b.instrs ++ [.store v p]⟩ ∧
        st'.errors = st1.errors ∧ st'.env = st1.env ∧
        st'.mem = memStore p v st1.mem ∧ st'.cursor = st1.cursor) := by
  constructor
  · intro hnone
    simp only [compileStmt, resolveValueOpt, hres, hnone]
  · intro p bty b hsome hb
    obtain ⟨st2, hs, hg2, hc2, he2, herr2, hn2, hm2⟩ := buildStore_spec st1 b v p hb
    refine ⟨st2, ?_, hg2, herr2, he2, hm2, hc2⟩
    simp only [compileStmt, resolveValueOpt, hres, hsome, hs]

/-- C5 witness: the amended theorem applied to the bound assignment
cond = 3; in a state binding cond to storage address 0. -/
theorem assign_lowering_amended_witness :
    ((compileStmt 3 (.assignStmt "cond" (some (.intLit 3))) condState).toOption.map
      (fun st' => (st'.errors, st'.mem))) = some ([], [(0, .constI32 3)]) := by
  obtain ⟨st', hok, hg, herr, henv, hmem, hc⟩ :=
    (assign_lowering_amended 1 "cond" (.intLit 3) condState condState
      (.constI32 3) (some .i32) rfl).2 (.ptr 0) .i1 ⟨"main_entry", []⟩ rfl rfl
  rw [hok]
  simp only [Except.toOption, Option.map, herr, hmem]
  rfl

/-- C6: 1 + 2 * 3 parses as 1 + (2 * 3); 2 * 3 + 1 parses as (2 * 3) + 1;
(1 + 2) * 3 keeps the grouping; and for every operator kind at the sum or
product level, 1 OP 2 OP 3 parses left-associatively as (1 OP 2) OP 3. -/
theorem precedence_and_left_associativity :
    ((parseProgram 50 [⟨.INT, "1"⟩, ⟨.PLUS, "+"⟩, ⟨.INT, "2"⟩, ⟨.ASTERISK, "*"⟩,
        ⟨.INT, "3"⟩, ⟨.SEMICOLON, ";"⟩]).map Prod.fst
      = some [.exprStmt (some (.infixExpr (some (.intLit 1)) "+"
          (some (.infixExpr (some (.intLit 2)) "*" (some (.intLit 3))))))]) ∧
    ((parseProgram 50 [⟨.INT, "2"⟩, ⟨.ASTERISK, "*"⟩, ⟨.INT, "3"⟩, ⟨.PLUS, "+"⟩,
        ⟨.INT, "1"⟩, ⟨.SEMICOLON, ";"⟩]).map Prod.fst
      = some [.exprStmt (some (.infixExpr
          (some (.infixExpr (some (.intLit 2)) "*" (some (.intLit 3)))) "+"
          (some (.intLit 1))))]) ∧
    ((parseProgram 50 [⟨.LPAREN, "("⟩, ⟨.INT, "1"⟩, ⟨.PLUS, "+"⟩, ⟨.INT, "2"⟩,
        ⟨.RPAREN, ")"⟩, ⟨.ASTERISK, "*"⟩, ⟨.INT, "3"⟩, ⟨.SEMICOLON, ";"⟩]).map Prod.fst
      = some [.exprStmt (some (.infixExpr
          (some (.infixExpr (some (.intLit 1)) "+" (some (.intLit 2)))) "*"
          (some (.intLit 3))))]) ∧
    ∀ p ∈ sumProductOps,
      (parseProgram 50 (toks123 p)).map Prod.fst
        = some [.exprStmt (some (.infixExpr
            (some (.infixExpr (some (.intLit 1)) p.2 (some (.intLit 2)))) p.2
            (some (.intLit 3))))] := by
  refine ⟨rfl, rfl, rfl, ?_⟩
  intro p hp
  fin_cases hp <;> rfl

/-- C6 witness: the left-associativity clause applied to the PLUS operator
kind. -/
theorem precedence_and_left_associativity_witness :
    (parseProgram 50 (toks123 (.PLUS, "+"))).map Prod.fst
      = some [.exprStmt (some (.infixExpr
          (some (.infixExpr (some (.intLit 1)) "+" (some (.intLit 2)))) "+"
          (some (.intLit 3))))] :=
  precedence_and_left_associativity.2.2.2 (.PLUS, "+") (by decide)

/-- C7: block lowering stops early, without recording any error, as soon as
the current block has a terminator (for any remaining statements), and the
concrete block  ret 1; ret 2;  lowers to exactly one return terminator with
nothing after it and no diagnostic. -/
theorem block_stops_at_terminator
    (fuel : Nat) (ss : List Stmt) (st : CState) (b : BasicBlock) (t : Instr)
    (hb : getBlock st = .ok b) (ht : b.terminator = some t) :
    visitBlockStmts (fuel + 1) ss st = .ok st ∧
    (compileStmt 6 (.blockStmt [.retStmt (some (.intLit 1)),
        .retStmt (some (.intLit 2))]) condState).toOption.map
        (fun st2 => ((st2.funcs.get? 0).map IRFunction.blocks, st2.errors))
      = some (some [⟨"main_entry", [.ret (.constI32 1)]⟩], []) := by
  constructor
  · cases ss with
    | nil => rfl
    | cons s rest => simp [visitBlockStmts, hb, ht]
  · rfl

/-- C7 witness: the early stop applied at a state whose block ends in a
return, with a further return statement pending. -/
theorem block_stops_at_terminator_witness :
    visitBlockStmts 3 [.retStmt (some (.intLit 5))] terminatedState
      = .ok terminatedState :=
  (block_stops_at_terminator 2 [.retStmt (some (.intLit 5))] terminatedState
    ⟨"main_entry", [.ret (.constI32 1)]⟩ (.ret (.constI32 1)) rfl rfl).1

/-- C9: whenever a function-declaration statement lowers successfully, the
builder cursor is restored to its value from before the statement, and the
scope chain equals the chain from before the statement except that the
(restored, enclosing) current frame now binds the function's name to the
function with its return type — the frame pushed for the body is gone and
the frames below the current one are untouched. -/
theorem function_lowering_restores
    (fuel : Nat) (name rt : String) (body : List Stmt) (st st' : CState)
    (retTy : IRType) (hty : typeMap rt = some retTy)
    (h : compileStmt fuel (.funcStmt name rt body) st = .ok st') :
    st'.cursor = st.cursor ∧
    st'.env = envDefine st.env name (.funcRef name) retTy := by
  cases fuel with
  | zero => simp [compileStmt] at h
  | succ n =>
    unfold compileStmt at h
    split at h
    · rename_i hnone
      rw [hty] at hnone
      cases hnone
    rename_i retTy2 hty2
    rw [hty] at hty2
    injection hty2 with hre
    subst hre
    split at h
    · simp at h
    rename_i st2 hv
    simp only [Except.ok.injEq] at h
    subst h
    refine ⟨rfl, ?_⟩
    show envDefine st2.env.tail name (.funcRef name) retTy
        = envDefine st.env name (.funcRef name) retTy
    have ht : st2.env.tail = st.env := (compile_env_tail n).2 body _ st2 hv
    rw [ht]

/-- C9 witness: the restoration theorem applied to lowering
fn f() -> int with body ret 0; from the initial compiler state. -/
theorem function_lowering_restores_witness :
    c9Result.cursor = initialCompilerState.cursor ∧
    c9Result.env = envDefine initialCompilerState.env "f" (.funcRef "f") .i32 :=
  function_lowering_restores 5 "f" "int" [.retStmt (some (.intLit 0))]
    initialCompilerState c9Result .i32 rfl rfl

/-! ## Parser termination (C10)

The measure counts the tokens still to be consumed; advancing never
increases it and strictly decreases it while the cursor is not at EOF, and
on a well-formed stream a state whose cursor reached EOF is terminal
(measure zero).  The two theorems below turn this into: the recursion
depth of the whole parser is bounded by sixteen times the measure. -/

theorem nextToken_measure_le (st : PState) :
    parserMeasure (nextToken st) ≤ parserMeasure st := by
  unfold parserMeasure nextToken lexNext
  cases st.rest with
  | nil => simp [eofToken] <;> split_ifs <;> omega
  | cons t ts => simp <;> split_ifs <;> omega

theorem nextToken_measure_lt (st : PState) (h : st.cur.type ≠ TokenType.EOF) :
    parserMeasure (nextToken st) < parserMeasure st := by
  unfold parserMeasure nextToken lexNext
  cases st.rest with
  | nil => simp [eofToken, h] <;> split_ifs <;> omega
  | cons t ts => simp [h] <;> split_ifs <;> omega

theorem WFStream_nextToken (st : PState) (h : WFStream st) :
    WFStream (nextToken st) := by
  obtain ⟨h1, h2, h3⟩ := h
  unfold WFStream nextToken lexNext
  cases hr : st.rest with
  | nil =>
    refine ⟨by simp, by simp, ?_⟩
    intro _
    exact ⟨rfl, rfl⟩
  | cons t ts =>
    refine ⟨?_, ?_, ?_⟩
    · intro u hu
      exact h1 u (by rw [hr]; exact List.mem_cons_of_mem t hu)
    · intro ht
      exact absurd ht (h1 t (by rw [hr]; exact List.mem_cons_self t ts))
    · intro hpk
      exact absurd (h2 hpk) (by rw [hr]; simp)

theorem WFStream_cur_eof (st : PState) (h : WFStream st)
    (hc : st.cur.type = TokenType.EOF) : parserMeasure st = 0 := by
  obtain ⟨h1, h2, h3⟩ := h
  obtain ⟨hpk, hrest⟩ := h3 hc
  unfold parserMeasure
  rw [hc, hpk, hrest]
  simp

theorem WFStream_peek_ne_eof (st : PState) (h : WFStream st)
    (hp : st.peek.type ≠ TokenType.EOF) : st.cur.type ≠ TokenType.EOF := by
  intro hc
  exact hp (h.2.2 hc).1

theorem nextToken_measure_lt_of_peek (st : PState) (h : WFStream st)
    (hp : st.peek.type ≠ TokenType.EOF) :
    parserMeasure (nextToken st) < parserMeasure st :=
  nextToken_measure_lt st (WFStream_peek_ne_eof st h hp)

/-- parserMeasure and WFStream read only the token components, so states
differing only in the error list are interchangeable. -/
theorem measure_congr (st st' : PState) (h1 : st'.cur = st.cur)
    (h2 : st'.peek = st.peek) (h3 : st'.rest = st.rest) :
    parserMeasure st' = parserMeasure st := by
  unfold parserMeasure
  rw [h1, h2, h3]

theorem WFStream_congr (st st' : PState) (h1 : st'.cur = st.cur)
    (h2 : st'.peek = st.peek) (h3 : st'.rest = st.rest) (h : WFStream st) :
    WFStream st' := by
  unfold WFStream
  rw [h1, h2, h3]
  exact h

theorem peekError_tokens (tt : TokenType) (st : PState) :
    (peekError tt st).cur = st.cur ∧ (peekError tt st).peek = st.peek ∧
    (peekError tt st).rest = st.rest := ⟨rfl, rfl, rfl⟩

theorem parseIntLiteral_tokens (st : PState) :
    (parseIntLiteral st).2.cur = st.cur ∧ (parseIntLiteral st).2.peek = st.peek ∧
    (parseIntLiteral st).2.rest = st.rest := by
  unfold parseIntLiteral
  split <;> exact ⟨rfl, rfl, rfl⟩

theorem parseFloatLiteral_tokens (st : PState) :
    (parseFloatLiteral st).2.cur = st.cur ∧ (parseFloatLiteral st).2.peek = st.peek ∧
    (parseFloatLiteral st).2.rest = st.rest := by
  unfold parseFloatLiteral
  split <;> exact ⟨rfl, rfl, rfl⟩

/-- A successful expect-peek means the expected kind was in peek position
and the parser advanced onto it. -/
theorem expectPeek_true (tt : TokenType) (st st' : PState)
    (h : expectPeek tt st = (true, st')) :
    st.peek.type = tt ∧ st' = nextToken st ∧ st'.cur.type = tt := by
  unfold expectPeek at h
  split at h
  · rename_i hpk
    simp only [Prod.mk.injEq] at h
    obtain ⟨_, h2⟩ := h
    subst h2
    exact ⟨hpk, rfl, hpk⟩
  · simp at h

theorem expectPeek_false (tt : TokenType) (st st' : PState)
    (h : expectPeek tt st = (false, st')) : st' = peekError tt st := by
  unfold expectPeek at h
  split at h
  · simp at h
  · simp only [Prod.mk.injEq] at h
    exact h.2.symm

/-- A peeked precedence above the caller minimum means the peek token is an
operator, in particular not the end marker. -/
theorem peekPrecedence_pos_ne_eof (prec : PrecedenceType) (st : PState)
    (h : prec.value < (peekPrecedence st).value) :
    st.peek.type ≠ TokenType.EOF := by
  intro hpk
  unfold peekPrecedence at h
  rw [hpk] at h
  simp [PRECEDENCES, PrecedenceType.value] at h

theorem nextToken_step (st : PState) (hwf : WFStream st) :
    WFStream (nextToken st) ∧ parserMeasure (nextToken st) ≤ parserMeasure st :=
  ⟨WFStream_nextToken st hwf, nextToken_measure_le st⟩

theorem peekError_step (tt : TokenType) (st : PState) (hwf : WFStream st) :
    WFStream (peekError tt st) ∧
    parserMeasure (peekError tt st) ≤ parserMeasure st :=
  ⟨WFStream_congr st _ rfl rfl rfl hwf, le_of_eq (measure_congr st _ rfl rfl rfl)⟩

theorem expectPeek_step (tt : TokenType) (st : PState) (flag : Bool) (st' : PState)
    (hwf : WFStream st) (h : expectPeek tt st = (flag, st')) :
    WFStream st' ∧ parserMeasure st' ≤ parserMeasure st := by
  cases flag
  · rw [expectPeek_false tt st st' h]
    exact peekError_step tt st hwf
  · obtain ⟨_, h2, _⟩ := expectPeek_true tt st st' h
    subst h2
    exact nextToken_step st hwf

theorem nextToken_cur (st : PState) : (nextToken st).cur = st.peek := rfl

theorem measure_pos_of_cur (st : PState) (h : st.cur.type ≠ TokenType.EOF) :
    1 ≤ parserMeasure st := by
  unfold parserMeasure
  rw [if_neg h]
  split_ifs <;> omega

/-- Under the stream invariant, advancing always moves the measure down to
at least one below (with truncated subtraction at zero). -/
theorem wf_next_pred (st : PState) (h : WFStream st) :
    parserMeasure (nextToken st) ≤ parserMeasure st - 1 := by
  by_cases hc : st.cur.type = TokenType.EOF
  · have h0 := WFStream_cur_eof st h hc
    have hle := nextToken_measure_le st
    omega
  · have := nextToken_measure_lt st hc
    omega

theorem WFStream_init (ts : List Token)
    (hts : ∀ t ∈ ts, t.type ≠ TokenType.EOF) : WFStream (initPState ts) := by
  cases ts with
  | nil =>
    exact ⟨by simp [initPState, nextToken, lexNext], by simp [initPState, nextToken, lexNext],
      fun _ => ⟨rfl, rfl⟩⟩
  | cons a ts2 =>
    cases ts2 with
    | nil =>
      refine ⟨by simp [initPState, nextToken, lexNext], by simp [initPState, nextToken, lexNext], ?_⟩
      intro _
      exact ⟨rfl, rfl⟩
    | cons b ts3 =>
      refine ⟨?_, ?_, ?_⟩
      · intro u hu
        refine hts u ?_
        simp only [initPState, nextToken, lexNext] at hu
        exact List.mem_cons_of_mem a (List.mem_cons_of_mem b hu)
      · intro hb
        exact absurd hb (hts b (by simp))
      · intro ha
        exact absurd ha (hts a (by simp))

/-- C8 counterexample: the comparison token kinds have no infix handler and
no precedence entry, so  1 < 2 ;  is not parsed as a binary node at the
comparison level — the 1 ends an expression statement and the dangling
comparison token triggers a no-prefix-rule diagnostic. -/
theorem comparison_not_infix_counterexample :
    PRECEDENCES .LT = none ∧ hasInfixFn .LT = false ∧
    ((parseProgram 50 [⟨.INT, "1"⟩, ⟨.LT, "<"⟩, ⟨.INT, "2"⟩, ⟨.SEMICOLON, ";"⟩]).map
        (fun r => (r.1, r.2.errors))
      = some ([.exprStmt (some (.intLit 1)), .exprStmt none,
          .exprStmt (some (.intLit 2))],
          ["No Prefix Parse Function for LT found"])) :=
  ⟨rfl, rfl, rfl⟩

/-- C8 amended: exactly the six arithmetic token kinds have a registered
infix handler and a precedence entry, the handler set and the precedence
table agree, the levels are ordered equality, comparison, sum, product,
exponent low to high, and no comparison token kind is registered. -/
theorem infix_registration_amended :
    (∀ tt : TokenType, hasInfixFn tt = true ↔ (PRECEDENCES tt).isSome = true) ∧
    (∀ tt : TokenType, hasInfixFn tt = true ↔
      tt ∈ ([.PLUS, .MINUS, .SLASH, .ASTERISK, .MODULUS, .POW] : List TokenType)) ∧
    (PRECEDENCES .LT = none ∧ PRECEDENCES .GT = none ∧ PRECEDENCES .EQ_EQ = none ∧
     PRECEDENCES .NOT_EQ = none ∧ PRECEDENCES .LT_EQ = none ∧
     PRECEDENCES .GT_EQ = none) ∧
    (PRECEDENCES .PLUS = some .P_SUM ∧ PRECEDENCES .MINUS = some .P_SUM ∧
     PRECEDENCES .ASTERISK = some .P_PRODUCT ∧ PRECEDENCES .SLASH = some .P_PRODUCT ∧
     PRECEDENCES .MODULUS = some .P_PRODUCT ∧ PRECEDENCES .POW = some .P_EXPONENT) ∧
    PrecedenceType.P_EQUALS.value < PrecedenceType.P_LESSGREATER.value ∧
    PrecedenceType.P_LESSGREATER.value < PrecedenceType.P_SUM.value ∧
    PrecedenceType.P_SUM.value < PrecedenceType.P_PRODUCT.value ∧
    PrecedenceType.P_PRODUCT.value < PrecedenceType.P_EXPONENT.value := by
  decide


/-- Every parser function, when it returns, returns a state of the same
well-formed stream with a measure no larger than its input's (the parser
never un-consumes). -/
theorem parser_step_sound :
    ∀ fuel : Nat,
      (∀ (prec : PrecedenceType) (st : PState), WFStream st →
        ∀ r st', parseExpressionFn fuel prec st = some (r, st') →
          WFStream st' ∧ parserMeasure st' ≤ parserMeasure st) ∧
      (∀ (prec : PrecedenceType) (left : Option Expr) (st : PState), WFStream st →
        ∀ r st', parseExprLoopFn fuel prec left st = some (r, st') →
          WFStream st' ∧ parserMeasure st' ≤ parserMeasure st) ∧
      (∀ (left : Option Expr) (st : PState), WFStream st →
        ∀ r st', parseInfixExprFn fuel left st = some (r, st') →
          WFStream st' ∧ parserMeasure st' ≤ parserMeasure st) ∧
      (∀ st : PState, WFStream st →
        ∀ r st', parseGroupedFn fuel st = some (r, st') →
          WFStream st' ∧ parserMeasure st' ≤ parserMeasure st) ∧
      (∀ st : PState, WFStream st →
        ∀ r st', parseStatementFn fuel st = some (r, st') →
          WFStream st' ∧ parserMeasure st' ≤ parserMeasure st) ∧
      (∀ st : PState, WFStream st →
        ∀ r st', parseExpressionStatementFn fuel st = some (r, st') →
          WFStream st' ∧ parserMeasure st' ≤ parserMeasure st) ∧
      (∀ st : PState, WFStream st →
        ∀ r st', parseVarStatementFn fuel st = some (r, st') →
          WFStream st' ∧ parserMeasure st' ≤ parserMeasure st) ∧
      (∀ st : PState, WFStream st →
        ∀ st', skipToSemicolonFn fuel st = some st' →
          WFStream st' ∧ parserMeasure st' ≤ parserMeasure st) ∧
      (∀ st : PState, WFStream st →
        ∀ r st', parseFunctionStatementFn fuel st = some (r, st') →
          WFStream st' ∧ parserMeasure st' ≤ parserMeasure st) ∧
      (∀ st : PState, WFStream st →
        ∀ r st', parseReturnStatementFn fuel st = some (r, st') →
          WFStream st' ∧ parserMeasure st' ≤ parserMeasure st) ∧
      (∀ st : PState, WFStream st →
        ∀ r st', parseBlockStatementFn fuel st = some (r, st') →
          WFStream st' ∧ parserMeasure st' ≤ parserMeasure st) ∧
      (∀ (acc : List Stmt) (st : PState), WFStream st →
        ∀ r st', blockLoopFn fuel acc st = some (r, st') →
          WFStream st' ∧ parserMeasure st' ≤ parserMeasure st) ∧
      (∀ st : PState, WFStream st →
        ∀ r st', parseAssignStatementFn fuel st = some (r, st') →
          WFStream st' ∧ parserMeasure st' ≤ parserMeasure st) ∧
      (∀ (acc : List Stmt) (st : PState), WFStream st →
        ∀ r st', parseProgramLoopFn fuel acc st = some (r, st') →
          WFStream st' ∧ parserMeasure st' ≤ parserMeasure st) := by
  intro fuel
  induction fuel with
  | zero =>
    refine ⟨?_, ?_, ?_, ?_, ?_, ?_, ?_, ?_, ?_, ?_, ?_, ?_, ?_, ?_⟩ <;>
      intros <;> simp_all [parseExpressionFn, parseExprLoopFn,
        parseInfixExprFn, parseGroupedFn, parseStatementFn,
        parseExpressionStatementFn, parseVarStatementFn, skipToSemicolonFn,
        parseFunctionStatementFn, parseReturnStatementFn,
        parseBlockStatementFn, blockLoopFn, parseAssignStatementFn,
        parseProgramLoopFn]
  | succ n ih =>
    obtain ⟨ihExpr, ihLoop, ihInfix, ihGrp, ihStmt, ihES, ihVar, ihSkip,
      ihFn, ihRet, ihBlock, ihBL, ihAssign, ihPL⟩ := ih
    refine ⟨?_, ?_, ?_, ?_, ?_, ?_, ?_, ?_, ?_, ?_, ?_, ?_, ?_, ?_⟩
    · -- parseExpressionFn
      intro prec st hwf r st' h
      unfold parseExpressionFn at h
      split at h
      · exact ihLoop prec ((parseIdentifier st).1) st hwf r st' h
      · have hts := parseIntLiteral_tokens st
        have hwf1 := WFStream_congr st _ hts.1 hts.2.1 hts.2.2 hwf
        have hmu := measure_congr st _ hts.1 hts.2.1 hts.2.2
        have res := ihLoop prec ((parseIntLiteral st).1) ((parseIntLiteral st).2) hwf1 r st' h
        exact ⟨res.1, hmu ▸ res.2⟩
      · have hts := parseFloatLiteral_tokens st
        have hwf1 := WFStream_congr st _ hts.1 hts.2.1 hts.2.2 hwf
        have hmu := measure_congr st _ hts.1 hts.2.1 hts.2.2
        have res := ihLoop prec ((parseFloatLiteral st).1) ((parseFloatLiteral st).2) hwf1 r st' h
        exact ⟨res.1, hmu ▸ res.2⟩
      · split at h
        · exact Option.noConfusion h
        rename_i left st1 hg
        have g := ihGrp st hwf left st1 hg
        have res := ihLoop prec left st1 g.1 r st' h
        exact ⟨res.1, le_trans res.2 g.2⟩
      · simp only [Option.some.injEq, Prod.mk.injEq] at h
        obtain ⟨_, h2⟩ := h
        subst h2
        exact ⟨WFStream_congr st _ rfl rfl rfl hwf,
          le_of_eq (measure_congr st _ rfl rfl rfl)⟩
    · -- parseExprLoopFn
      intro prec left st hwf r st' h
      unfold parseExprLoopFn at h
      split at h
      · split at h
        · split at h
          · exact Option.noConfusion h
          rename_i left2 st2 hInf
          have nx := nextToken_step st hwf
          have inf := ihInfix left (nextToken st) nx.1 left2 st2 hInf
          have res := ihLoop prec left2 st2 inf.1 r st' h
          exact ⟨res.1, le_trans res.2 (le_trans inf.2 nx.2)⟩
        · simp only [Option.some.injEq, Prod.mk.injEq] at h
          obtain ⟨_, h2⟩ := h
          subst h2
          exact ⟨hwf, le_refl _⟩
      · simp only [Option.some.injEq, Prod.mk.injEq] at h
        obtain ⟨_, h2⟩ := h
        subst h2
        exact ⟨hwf, le_refl _⟩
    · -- parseInfixExprFn
      intro left st hwf r st' h
      unfold parseInfixExprFn at h
      split at h
      · exact Option.noConfusion h
      rename_i right st2 hE
      simp only [Option.some.injEq, Prod.mk.injEq] at h
      obtain ⟨_, h2⟩ := h
      subst h2
      have nx := nextToken_step st hwf
      have e := ihExpr (currentPrecedence st) (nextToken st) nx.1 right st2 hE
      exact ⟨e.1, le_trans e.2 nx.2⟩
    · -- parseGroupedFn
      intro st hwf r st' h
      unfold parseGroupedFn at h
      split at h
      · exact Option.noConfusion h
      rename_i e1 st1 hE
      have nx := nextToken_step st hwf
      have e := ihExpr .P_LOWEST (nextToken st) nx.1 e1 st1 hE
      have hle : parserMeasure st1 ≤ parserMeasure st := le_trans e.2 nx.2
      split at h
      · rename_i st2 hep
        simp only [Option.some.injEq, Prod.mk.injEq] at h
        obtain ⟨_, h2⟩ := h
        subst h2
        have s2 := expectPeek_step .RPAREN st1 true st2 e.1 hep
        exact ⟨s2.1, le_trans s2.2 hle⟩
      · rename_i st2 hep
        simp only [Option.some.injEq, Prod.mk.injEq] at h
        obtain ⟨_, h2⟩ := h
        subst h2
        have s2 := expectPeek_step .RPAREN st1 false st2 e.1 hep
        exact ⟨s2.1, le_trans s2.2 hle⟩
    · -- parseStatementFn
      intro st hwf r st' h
      unfold parseStatementFn at h
      split at h
      · exact ihAssign st hwf r st' h
      · split at h
        · exact ihVar st hwf r st' h
        · exact ihFn st hwf r st' h
        · exact ihRet st hwf r st' h
        · exact ihES st hwf r st' h
    · -- parseExpressionStatementFn
      intro st hwf r st' h
      unfold parseExpressionStatementFn at h
      split at h
      · exact Option.noConfusion h
      rename_i st c1 c2 fuel2 heqf
      injection heqf with hfe
      subst hfe
      split at h
      · exact Option.noConfusion h
      rename_i e1 st1 hE
      have e := ihExpr .P_LOWEST st hwf e1 st1 hE
      simp only [Option.some.injEq, Prod.mk.injEq] at h
      obtain ⟨_, h2⟩ := h
      subst h2
      split
      · have nx := nextToken_step st1 e.1
        exact ⟨nx.1, le_trans nx.2 e.2⟩
      · exact e
    · -- parseVarStatementFn
      intro st hwf r st' h
      unfold parseVarStatementFn at h
      split at h
      · exact Option.noConfusion h
      rename_i st c1 c2 fuel2 heqf
      injection heqf with hfe
      subst hfe
      split at h
      · rename_i st1 hep
        simp only [Option.some.injEq, Prod.mk.injEq] at h
        obtain ⟨_, h2⟩ := h
        subst h2
        exact expectPeek_step .IDENT st false st1 hwf hep
      rename_i st1 hep1
      have s1 := expectPeek_step .IDENT st true st1 hwf hep1
      split at h
      · rename_i st2 hep
        simp only [Option.some.injEq, Prod.mk.injEq] at h
        obtain ⟨_, h2⟩ := h
        subst h2
        have s2 := expectPeek_step .COLON st1 false st2 s1.1 hep
        exact ⟨s2.1, le_trans s2.2 s1.2⟩
      rename_i st2 hep2
      have s2 := expectPeek_step .COLON st1 true st2 s1.1 hep2
      split at h
      · rename_i st3 hep
        simp only [Option.some.injEq, Prod.mk.injEq] at h
        obtain ⟨_, h2⟩ := h
        subst h2
        have s3 := expectPeek_step .TYPE st2 false st3 s2.1 hep
        exact ⟨s3.1, le_trans s3.2 (le_trans s2.2 s1.2)⟩
      rename_i st3 hep3
      have s3 := expectPeek_step .TYPE st2 true st3 s2.1 hep3
      split at h
      · rename_i st4 hep
        simp only [Option.some.injEq, Prod.mk.injEq] at h
        obtain ⟨_, h2⟩ := h
        subst h2
        have s4 := expectPeek_step .EQ st3 false st4 s3.1 hep
        exact ⟨s4.1, le_trans s4.2 (le_trans s3.2 (le_trans s2.2 s1.2))⟩
      rename_i st4 hep4
      have s4 := expectPeek_step .EQ st3 true st4 s3.1 hep4
      split at h
      · exact Option.noConfusion h
      rename_i v5 st5 hE
      have nx := nextToken_step st4 s4.1
      have e := ihExpr .P_LOWEST (nextToken st4) nx.1 v5 st5 hE
      split at h
      · exact Option.noConfusion h
      rename_i st6 hskip
      have s6 := ihSkip st5 e.1 st6 hskip
      simp only [Option.some.injEq, Prod.mk.injEq] at h
      obtain ⟨_, h2⟩ := h
      subst h2
      refine ⟨s6.1, ?_⟩
      have m1 := s1.2
      have m2 := s2.2
      have m3 := s3.2
      have m4 := s4.2
      have m5 := nx.2
      have m6 := e.2
      have m7 := s6.2
      omega
    · -- skipToSemicolonFn
      intro st hwf st' h
      unfold skipToSemicolonFn at h
      split at h
      · have nx := nextToken_step st hwf
        have s := ihSkip (nextToken st) nx.1 st' h
        exact ⟨s.1, le_trans s.2 nx.2⟩
      · simp only [Option.some.injEq] at h
        subst h
        exact ⟨hwf, le_refl _⟩
    · -- parseFunctionStatementFn
      intro st hwf r st' h
      unfold parseFunctionStatementFn at h
      split at h
      · rename_i st1 hep
        simp only [Option.some.injEq, Prod.mk.injEq] at h
        obtain ⟨_, h2⟩ := h
        subst h2
        exact expectPeek_step .IDENT st false st1 hwf hep
      rename_i st1 hep1
      have s1 := expectPeek_step .IDENT st true st1 hwf hep1
      split at h
      · rename_i st2 hep
        simp only [Option.some.injEq, Prod.mk.injEq] at h
        obtain ⟨_, h2⟩ := h
        subst h2
        have s2 := expectPeek_step .LPAREN st1 false st2 s1.1 hep
        exact ⟨s2.1, le_trans s2.2 s1.2⟩
      rename_i st2 hep2
      have s2 := expectPeek_step .LPAREN st1 true st2 s1.1 hep2
      split at h
      · rename_i st3 hep
        simp only [Option.some.injEq, Prod.mk.injEq] at h
        obtain ⟨_, h2⟩ := h
        subst h2
        have s3 := expectPeek_step .RPAREN st2 false st3 s2.1 hep
        exact ⟨s3.1, le_trans s3.2 (le_trans s2.2 s1.2)⟩
      rename_i st3 hep3
      have s3 := expectPeek_step .RPAREN st2 true st3 s2.1 hep3
      split at h
      · rename_i st4 hep
        simp only [Option.some.injEq, Prod.mk.injEq] at h
        obtain ⟨_, h2⟩ := h
        subst h2
        have s4 := expectPeek_step .ARROW st3 false st4 s3.1 hep
        exact ⟨s4.1, le_trans s4.2 (le_trans s3.2 (le_trans s2.2 s1.2))⟩
      rename_i st4 hep4
      have s4 := expectPeek_step .ARROW st3 true st4 s3.1 hep4
      split at h
      · rename_i st5 hep
        simp only [Option.some.injEq, Prod.mk.injEq] at h
        obtain ⟨_, h2⟩ := h
        subst h2
        have s5 := expectPeek_step .TYPE st4 false st5 s4.1 hep
        exact ⟨s5.1, le_trans s5.2
          (le_trans s4.2 (le_trans s3.2 (le_trans s2.2 s1.2)))⟩
      rename_i st5 hep5
      have s5 := expectPeek_step .TYPE st4 true st5 s4.1 hep5
      split at h
      · rename_i st6 hep
        simp only [Option.some.injEq, Prod.mk.injEq] at h
        obtain ⟨_, h2⟩ := h
        subst h2
        have s6 := expectPeek_step .LBRACE st5 false st6 s5.1 hep
        exact ⟨s6.1, le_trans s6.2 (le_trans s5.2
          (le_trans s4.2 (le_trans s3.2 (le_trans s2.2 s1.2))))⟩
      rename_i st6 hep6
      have s6 := expectPeek_step .LBRACE st5 true st6 s5.1 hep6
      split at h
      · exact Option.noConfusion h
      rename_i body st7 hbody
      have b := ihBlock st6 s6.1 body st7 hbody
      simp only [Option.some.injEq, Prod.mk.injEq] at h
      obtain ⟨_, h2⟩ := h
      subst h2
      refine ⟨b.1, ?_⟩
      have m1 := s1.2
      have m2 := s2.2
      have m3 := s3.2
      have m4 := s4.2
      have m5 := s5.2
      have m6 := s6.2
      have m7 := b.2
      omega
    · -- parseReturnStatementFn
      intro st hwf r r' h
      unfold parseReturnStatementFn at h
      split at h
      · exact Option.noConfusion h
      rename_i st c1 c2 fuel2 heqf
      injection heqf with hfe
      subst hfe
      split at h
      · exact Option.noConfusion h
      rename_i v1 st1 hE
      have nx := nextToken_step st hwf
      have e := ihExpr .P_LOWEST (nextToken st) nx.1 v1 st1 hE
      split at h
      · rename_i st2 hep
        simp only [Option.some.injEq, Prod.mk.injEq] at h
        obtain ⟨_, h2⟩ := h
        subst h2
        have s2 := expectPeek_step .SEMICOLON st1 false st2 e.1 hep
        exact ⟨s2.1, le_trans s2.2 (le_trans e.2 nx.2)⟩
      · rename_i st2 hep
        simp only [Option.some.injEq, Prod.mk.injEq] at h
        obtain ⟨_, h2⟩ := h
        subst h2
        have s2 := expectPeek_step .SEMICOLON st1 true st2 e.1 hep
        exact ⟨s2.1, le_trans s2.2 (le_trans e.2 nx.2)⟩
    · -- parseBlockStatementFn
      intro st hwf r st' h
      unfold parseBlockStatementFn at h
      have nx := nextToken_step st hwf
      have s := ihBL [] (nextToken st) nx.1 r st' h
      exact ⟨s.1, le_trans s.2 nx.2⟩
    · -- blockLoopFn
      intro acc st hwf r st' h
      unfold blockLoopFn at h
      split at h
      · split at h
        · exact Option.noConfusion h
        rename_i s1 st1 hS
        have sres := ihStmt st hwf s1 st1 hS
        have nx := nextToken_step st1 sres.1
        have l := ihBL _ (nextToken st1) nx.1 r st' h
        exact ⟨l.1, le_trans l.2 (le_trans nx.2 sres.2)⟩
      · simp only [Option.some.injEq, Prod.mk.injEq] at h
        obtain ⟨_, h2⟩ := h
        subst h2
        exact ⟨hwf, le_refl _⟩
    · -- parseAssignStatementFn
      intro st hwf r st' h
      unfold parseAssignStatementFn at h
      split at h
      · exact Option.noConfusion h
      rename_i st c1 c2 fuel2 heqf
      injection heqf with hfe
      subst hfe
      split at h
      · exact Option.noConfusion h
      rename_i v1 st2 hE
      have nx1 := nextToken_step st hwf
      have nx2 := nextToken_step (nextToken st) nx1.1
      have e := ihExpr .P_LOWEST (nextToken (nextToken st)) nx2.1 v1 st2 hE
      simp only [Option.some.injEq, Prod.mk.injEq] at h
      obtain ⟨_, h2⟩ := h
      subst h2
      have nx3 := nextToken_step st2 e.1
      refine ⟨nx3.1, ?_⟩
      have m1 := nx1.2
      have m2 := nx2.2
      have m3 := e.2
      have m4 := nx3.2
      omega
    · -- parseProgramLoopFn
      intro acc st hwf r st' h
      unfold parseProgramLoopFn at h
      split at h
      · simp only [Option.some.injEq, Prod.mk.injEq] at h
        obtain ⟨_, h2⟩ := h
        subst h2
        exact ⟨hwf, le_refl _⟩
      · split at h
        · exact Option.noConfusion h
        rename_i s1 st1 hS
        have sres := ihStmt st hwf s1 st1 hS
        have nx := nextToken_step st1 sres.1
        have l := ihPL _ (nextToken st1) nx.1 r st' h
        exact ⟨l.1, le_trans l.2 (le_trans nx.2 sres.2)⟩

/-- Every parser function succeeds (returns some) whenever it is given at
least sixteen times the stream measure plus a small per-function constant
of fuel; the strict token consumption at every cycle of the call graph pays
for the constant overhead. -/
theorem parser_fuel_sufficient :
    ∀ fuel : Nat,
      (∀ (prec : PrecedenceType) (st : PState), WFStream st →
        16 * parserMeasure st + 2 ≤ fuel →
          (parseExpressionFn fuel prec st).isSome = true) ∧
      (∀ (prec : PrecedenceType) (left : Option Expr) (st : PState), WFStream st →
        16 * parserMeasure st + 1 ≤ fuel →
          (parseExprLoopFn fuel prec left st).isSome = true) ∧
      (∀ (left : Option Expr) (st : PState), WFStream st →
        st.cur.type ≠ TokenType.EOF →
        16 * parserMeasure st + 1 ≤ fuel →
          (parseInfixExprFn fuel left st).isSome = true) ∧
      (∀ st : PState, WFStream st → st.cur.type ≠ TokenType.EOF →
        16 * parserMeasure st + 1 ≤ fuel →
          (parseGroupedFn fuel st).isSome = true) ∧
      (∀ st : PState, WFStream st →
        16 * parserMeasure st + 4 ≤ fuel →
          (parseStatementFn fuel st).isSome = true) ∧
      (∀ st : PState, WFStream st →
        16 * parserMeasure st + 3 ≤ fuel →
          (parseExpressionStatementFn fuel st).isSome = true) ∧
      (∀ st : PState, WFStream st →
        16 * parserMeasure st + 3 ≤ fuel →
          (parseVarStatementFn fuel st).isSome = true) ∧
      (∀ st : PState, WFStream st →
        16 * parserMeasure st + 1 ≤ fuel →
          (skipToSemicolonFn fuel st).isSome = true) ∧
      (∀ st : PState, WFStream st →
        16 * parserMeasure st + 2 ≤ fuel →
          (parseFunctionStatementFn fuel st).isSome = true) ∧
      (∀ st : PState, WFStream st →
        16 * parserMeasure st + 3 ≤ fuel →
          (parseReturnStatementFn fuel st).isSome = true) ∧
      (∀ st : PState, WFStream st → st.cur.type ≠ TokenType.EOF →
        16 * parserMeasure st + 1 ≤ fuel →
          (parseBlockStatementFn fuel st).isSome = true) ∧
      (∀ (acc : List Stmt) (st : PState), WFStream st →
        16 * parserMeasure st + 5 ≤ fuel →
          (blockLoopFn fuel acc st).isSome = true) ∧
      (∀ st : PState, WFStream st →
        16 * parserMeasure st + 3 ≤ fuel →
          (parseAssignStatementFn fuel st).isSome = true) ∧
      (∀ (acc : List Stmt) (st : PState), WFStream st →
        16 * parserMeasure st + 5 ≤ fuel →
          (parseProgramLoopFn fuel acc st).isSome = true) := by
  intro fuel
  induction fuel with
  | zero =>
    refine ⟨?_, ?_, ?_, ?_, ?_, ?_, ?_, ?_, ?_, ?_, ?_, ?_, ?_, ?_⟩ <;>
      intros <;> exact False.elim (by omega)
  | succ n ih =>
    obtain ⟨ihExpr, ihLoop, ihInfix, ihGrp, ihStmt, ihES, ihVar, ihSkip,
      ihFn, ihRet, ihBlock, ihBL, ihAssign, ihPL⟩ := ih
    obtain ⟨sExpr, sLoop, sInfix, sGrp, sStmt, sES, sVar, sSkip,
      sFn, sRet, sBlock, sBL, sAssign, sPL⟩ := parser_step_sound n
    refine ⟨?_, ?_, ?_, ?_, ?_, ?_, ?_, ?_, ?_, ?_, ?_, ?_, ?_, ?_⟩
    · -- parseExpressionFn
      intro prec st hwf hb
      unfold parseExpressionFn
      split
      · -- IDENT
        split
        rename_i left st1 hpi
        unfold parseIdentifier at hpi
        simp only [Prod.mk.injEq] at hpi
        obtain ⟨_, h1⟩ := hpi
        subst h1
        exact ihLoop prec left st hwf (by omega)
      · -- INT
        split
        rename_i left st1 hpi
        have hts := parseIntLiteral_tokens st
        rw [hpi] at hts
        have hwf1 := WFStream_congr st st1 hts.1 hts.2.1 hts.2.2 hwf
        have hmu := measure_congr st st1 hts.1 hts.2.1 hts.2.2
        exact ihLoop prec left st1 hwf1 (by omega)
      · -- FLOAT
        split
        rename_i left st1 hpi
        have hts := parseFloatLiteral_tokens st
        rw [hpi] at hts
        have hwf1 := WFStream_congr st st1 hts.1 hts.2.1 hts.2.2 hwf
        have hmu := measure_congr st st1 hts.1 hts.2.1 hts.2.2
        exact ihLoop prec left st1 hwf1 (by omega)
      · -- LPAREN
        rename_i heqc
        have hcne : st.cur.type ≠ TokenType.EOF := by rw [heqc]; decide
        have hg := ihGrp st hwf hcne (by omega)
        split
        · rename_i heqg
          rw [heqg] at hg
          simp at hg
        · rename_i left st1 heqg
          have hs := sGrp st hwf left st1 heqg
          have hm := hs.2
          exact ihLoop prec left st1 hs.1 (by omega)
      · rfl
    · -- parseExprLoopFn
      intro prec left st hwf hb
      unfold parseExprLoopFn
      split
      · rename_i hcond
        split
        · rename_i hinf
          have hpne := peekPrecedence_pos_ne_eof prec st hcond.2
          have hcne := WFStream_peek_ne_eof st hwf hpne
          have hlt := nextToken_measure_lt st hcne
          have hwfn := WFStream_nextToken st hwf
          have hcne2 : (nextToken st).cur.type ≠ TokenType.EOF := by
            rw [nextToken_cur]; exact hpne
          have hi := ihInfix left (nextToken st) hwfn hcne2 (by omega)
          split
          · rename_i heqi
            rw [heqi] at hi
            simp at hi
          · rename_i left2 st2 heqi
            have hs := sInfix left (nextToken st) hwfn left2 st2 heqi
            have hm := hs.2
            exact ihLoop prec left2 st2 hs.1 (by omega)
        · rfl
      · rfl
    · -- parseInfixExprFn
      intro left st hwf hcne hb
      unfold parseInfixExprFn
      have hlt := nextToken_measure_lt st hcne
      have hwfn := WFStream_nextToken st hwf
      have he := ihExpr (currentPrecedence st) (nextToken st) hwfn (by omega)
      split
      · rename_i heqe
        rw [heqe] at he
        simp at he
      · rfl
    · -- parseGroupedFn
      intro st hwf hcne hb
      unfold parseGroupedFn
      have hlt := nextToken_measure_lt st hcne
      have hwfn := WFStream_nextToken st hwf
      have he := ihExpr .P_LOWEST (nextToken st) hwfn (by omega)
      split
      · rename_i heqe
        rw [heqe] at he
        simp at he
      · rename_i e st1 heqe
        split
        · rfl
        · rfl
    · -- parseStatementFn
      intro st hwf hb
      unfold parseStatementFn
      split
      · exact ihAssign st hwf (by omega)
      · split
        · exact ihVar st hwf (by omega)
        · exact ihFn st hwf (by omega)
        · exact ihRet st hwf (by omega)
        · exact ihES st hwf (by omega)
    · -- parseExpressionStatementFn
      intro st hwf hb
      show (match parseExpressionFn n PrecedenceType.P_LOWEST st with
        | none => none
        | some (e, st1) =>
          some (some (Stmt.exprStmt e),
            if st1.peek.type = TokenType.SEMICOLON then nextToken st1 else st1)).isSome = true
      have he := ihExpr .P_LOWEST st hwf (by omega)
      split
      · rename_i heqe
        rw [heqe] at he
        simp at he
      · rfl
    · -- parseVarStatementFn
      intro st hwf hb
      show (match expectPeek TokenType.IDENT st with
        | (false, st1) => some (none, st1)
        | (true, st1) =>
          match expectPeek TokenType.COLON st1 with
          | (false, st2) => some (none, st2)
          | (true, st2) =>
            match expectPeek TokenType.TYPE st2 with
            | (false, st3) => some (none, st3)
            | (true, st3) =>
              match expectPeek TokenType.EQ st3 with
              | (false, st4) => some (none, st4)
              | (true, st4) =>
                match parseExpressionFn n PrecedenceType.P_LOWEST (nextToken st4) with
                | none => none
                | some (v, st5) =>
                  match skipToSemicolonFn n st5 with
                  | none => none
                  | some st6 =>
                    some (some (Stmt.varStmt st1.cur.lit st3.cur.lit v), st6)).isSome = true
      split
      · rfl
      rename_i st1 hep1
      have s1 := expectPeek_step .IDENT st true st1 hwf hep1
      split
      · rfl
      rename_i st2 hep2
      have s2 := expectPeek_step .COLON st1 true st2 s1.1 hep2
      split
      · rfl
      rename_i st3 hep3
      have s3 := expectPeek_step .TYPE st2 true st3 s2.1 hep3
      split
      · rfl
      rename_i st4 hep4
      have s4 := expectPeek_step .EQ st3 true st4 s3.1 hep4
      have hwfn := WFStream_nextToken st4 s4.1
      have hlen := nextToken_measure_le st4
      have m1 := s1.2
      have m2 := s2.2
      have m3 := s3.2
      have m4 := s4.2
      have he := ihExpr .P_LOWEST (nextToken st4) hwfn (by omega)
      split
      · rename_i heqe
        rw [heqe] at he
        simp at he
      rename_i v st5 heqe
      have hs5 := sExpr .P_LOWEST (nextToken st4) hwfn v st5 heqe
      have m5 := hs5.2
      have hk := ihSkip st5 hs5.1 (by omega)
      split
      · rename_i heqk
        rw [heqk] at hk
        simp at hk
      · rfl
    · -- skipToSemicolonFn
      intro st hwf hb
      unfold skipToSemicolonFn
      split
      · rename_i hcond
        have hlt := nextToken_measure_lt st hcond.2
        have hwfn := WFStream_nextToken st hwf
        exact ihSkip (nextToken st) hwfn (by omega)
      · rfl
    · -- parseFunctionStatementFn
      intro st hwf hb
      unfold parseFunctionStatementFn
      split
      · rfl
      rename_i st1 hep1
      have s1 := expectPeek_step .IDENT st true st1 hwf hep1
      split
      · rfl
      rename_i st2 hep2
      have s2 := expectPeek_step .LPAREN st1 true st2 s1.1 hep2
      split
      · rfl
      rename_i st3 hep3
      have s3 := expectPeek_step .RPAREN st2 true st3 s2.1 hep3
      split
      · rfl
      rename_i st4 hep4
      have s4 := expectPeek_step .ARROW st3 true st4 s3.1 hep4
      split
      · rfl
      rename_i st5 hep5
      have s5 := expectPeek_step .TYPE st4 true st5 s4.1 hep5
      split
      · rfl
      rename_i st6 hep6
      have s6 := expectPeek_step .LBRACE st5 true st6 s5.1 hep6
      have hc6 : st6.cur.type ≠ TokenType.EOF := by
        have hl := (expectPeek_true .LBRACE st5 st6 hep6).2.2
        rw [hl]
        decide
      have m1 := s1.2
      have m2 := s2.2
      have m3 := s3.2
      have m4 := s4.2
      have m5 := s5.2
      have m6 := s6.2
      have hbk := ihBlock st6 s6.1 hc6 (by omega)
      split
      · rename_i heqb
        rw [heqb] at hbk
        simp at hbk
      · rfl
    · -- parseReturnStatementFn
      intro st hwf hb
      show (match parseExpressionFn n PrecedenceType.P_LOWEST (nextToken st) with
        | none => none
        | some (v, st1) =>
          match expectPeek TokenType.SEMICOLON st1 with
          | (false, st2) => some (none, st2)
          | (true, st2) => some (some (Stmt.retStmt v), st2)).isSome = true
      have hwfn := WFStream_nextToken st hwf
      have hlen := nextToken_measure_le st
      have he := ihExpr .P_LOWEST (nextToken st) hwfn (by omega)
      split
      · rename_i heqe
        rw [heqe] at he
        simp at he
      rename_i v st1 heqe
      split
      · rfl
      · rfl
    · -- parseBlockStatementFn
      intro st hwf hcne hb
      unfold parseBlockStatementFn
      have hlt := nextToken_measure_lt st hcne
      have hwfn := WFStream_nextToken st hwf
      exact ihBL [] (nextToken st) hwfn (by omega)
    · -- blockLoopFn
      intro acc st hwf hb
      unfold blockLoopFn
      split
      · rename_i hcond
        have hst := ihStmt st hwf (by omega)
        split
        · rename_i heqs
          rw [heqs] at hst
          simp at hst
        · rename_i stmtOpt st1 heqs
          have hs := sStmt st hwf stmtOpt st1 heqs
          have hp := wf_next_pred st1 hs.1
          have hpos := measure_pos_of_cur st hcond.2
          have hwfn := WFStream_nextToken st1 hs.1
          have hm := hs.2
          exact ihBL _ (nextToken st1) hwfn (by omega)
      · rfl
    · -- parseAssignStatementFn
      intro st hwf hb
      show (match parseExpressionFn n PrecedenceType.P_LOWEST (nextToken (nextToken st)) with
        | none => none
        | some (v, st2) =>
          some (some (Stmt.assignStmt st.cur.lit v), nextToken st2)).isSome = true
      have hwf1 := WFStream_nextToken st hwf
      have hwf2 := WFStream_nextToken (nextToken st) hwf1
      have hle1 := nextToken_measure_le st
      have hle2 := nextToken_measure_le (nextToken st)
      have he := ihExpr .P_LOWEST (nextToken (nextToken st)) hwf2 (by omega)
      split
      · rename_i heqe
        rw [heqe] at he
        simp at he
      · rfl
    · -- parseProgramLoopFn
      intro acc st hwf hb
      unfold parseProgramLoopFn
      split
      · rfl
      · rename_i hcond
        have hst := ihStmt st hwf (by omega)
        split
        · rename_i heqs
          rw [heqs] at hst
          simp at hst
        · rename_i stmtOpt st1 heqs
          have hs := sStmt st hwf stmtOpt st1 heqs
          have hp := wf_next_pred st1 hs.1
          have hpos := measure_pos_of_cur st hcond
          have hwfn := WFStream_nextToken st1 hs.1
          have hm := hs.2
          exact ihPL _ (nextToken st1) hwfn (by omega)


/-- C10: parse_program terminates on every finite token stream whose tokens
are all proper (non-EOF) tokens, the lexer model supplying EOF forever after
exhaustion: with fuel sixteen times the initial stream measure plus five,
the main statement loop (and through it the block loop, the var-statement
recovery loop and the expression climbing loop, each of which consumes at
least one token per iteration or stops at EOF or a closing brace) returns a
parse result rather than running out of fuel, even on malformed input with
no prefix rule. -/
theorem parseProgram_terminates (ts : List Token)
    (hts : ∀ t ∈ ts, t.type ≠ TokenType.EOF) :
    (parseProgram (16 * parserMeasure (initPState ts) + 5) ts).isSome = true := by
  have hwf := WFStream_init ts hts
  exact (parser_fuel_sufficient
    (16 * parserMeasure (initPState ts) + 5)).2.2.2.2.2.2.2.2.2.2.2.2.2
    [] (initPState ts) hwf (le_refl _)

theorem parseProgram_terminates_witness :
    (∀ t ∈ [Token.mk TokenType.INT "1", Token.mk TokenType.SEMICOLON ";"],
      t.type ≠ TokenType.EOF) ∧
    (parseProgram
      (16 * parserMeasure (initPState
        [Token.mk TokenType.INT "1", Token.mk TokenType.SEMICOLON ";"]) + 5)
      [Token.mk TokenType.INT "1", Token.mk TokenType.SEMICOLON ";"]).isSome
      = true :=
  ⟨by decide, parseProgram_terminates
    [Token.mk TokenType.INT "1", Token.mk TokenType.SEMICOLON ";"] (by decide)⟩


end PyAscent
